import Mathlib

/-!
Verification of the LMIPy catalog-client library (`LMIPy/lmipy.py`).

This file gives a shallow embedding of the parts of the library that the
collection / dataset claims are about:

* a `PyVal` type for the JSON-ish Python values that flow through the code
  (`None`, booleans, ints, strings, lists, dicts), with the Python
  operations the source uses (`.get`, `len`, truthiness, `in`, `==`, `<`,
  `.lower()`, `', '.join`, iteration, indexing);
* the `Collection` pipeline: tokenisation of the search string
  (`search.strip().split(' ')`), `filter_results`, `order_results`
  and `get_collection`;
* the `Dataset` / `Table` / `Layer` / `Metadata` / `Vocabulary`
  constructors, and the `html_box` presentation function.

Python strings are modelled as `List Char` (`Str`) so that every
definition is structural and evaluates by `rfl`/`decide`; string methods
(`lower`, `strip`, `split`, substring `in`) are defined over characters
exactly as CPython behaves on the ASCII data the library handles.
Fallible Python code (code that can raise) is embedded in
`Except PyErr`; network fetches are passed in as explicit functions.
-/

namespace LMIPy

/-- Characters of a Python string. -/
abbrev Str := List Char

/-- A Python/JSON value as it appears in the library: `None`, `bool`,
`int`, `str`, `list`, or a string-keyed `dict`. -/
inductive PyVal where
  | vnone : PyVal
  | vbool : Bool → PyVal
  | vint : Int → PyVal
  | vstr : Str → PyVal
  | vlist : List PyVal → PyVal
  | vdict : List (Str × PyVal) → PyVal

/-- Exceptions the embedded code can raise.  The three `valueError*`
constructors keep the distinct `ValueError` messages of the source apart
(`'No items found'`, the `[Order-error]` message, and the Metadata /
Vocabulary tag mismatches). -/
inductive PyErr where
  | typeError
  | attributeError
  | nameError
  | valueErrorNoItems
  | valueErrorOrder
  | valueErrorMetadata
  | valueErrorVocabulary
deriving DecidableEq

/-- ASCII lower-casing of one character, as `str.lower` acts on the
ASCII names the catalog holds. -/
def lowCh (c : Char) : Char :=
  if 'A' ≤ c && c ≤ 'Z' then Char.ofNat (c.toNat + 32) else c

/-- ASCII upper-casing of one character (`str.upper`). -/
def upCh (c : Char) : Char :=
  if 'a' ≤ c && c ≤ 'z' then Char.ofNat (c.toNat - 32) else c

/-- Python `s.lower()` on a string. -/
def lowStr (s : Str) : Str := s.map lowCh

/-- Whitespace characters stripped by Python `str.strip()`. -/
def isWs (c : Char) : Bool :=
  c == ' ' || c == '\t' || c == '\n' || c == '\r' || c == '\x0b' || c == '\x0c'

/-- Python `s.strip()`: drop leading and trailing whitespace. -/
def pyStrip (s : Str) : Str :=
  ((s.dropWhile isWs).reverse.dropWhile isWs).reverse

/-- Python `s.split(' ')`: split on every single space, keeping empty
pieces; on the empty string it returns `['']`. -/
def splitSp : Str → List Str
  | [] => [[]]
  | c :: rest =>
    if c == ' ' then [] :: splitSp rest
    else
      match splitSp rest with
      | [] => [[c]]
      | t :: ts => (c :: t) :: ts

/-- The token list `Collection.__init__` derives from the `search`
argument: `search.strip().split(' ')`. -/
def Collection.tokenize (s : Str) : List Str := splitSp (pyStrip s)

/-- Python `needle == hay[:len(needle)]`-style check used by `hasSub`. -/
def headEq : Str → Str → Bool
  | [], _ => true
  | _ :: _, [] => false
  | a :: as, b :: bs => a == b && headEq as bs

/-- Python substring containment `n in h` on strings. -/
def hasSub (n : Str) : Str → Bool
  | [] => headEq n []
  | c :: t => headEq n (c :: t) || hasSub n t

/-- Python `==` between the values compared by the library.  Booleans
compare equal to the ints `0`/`1` as in Python.  Deep list/dict equality
never arises in the embedded code (dict keys are hashable, and the only
container membership test compares a string against list elements), so
container comparison is conservatively `false`. -/
def pyEqB : PyVal → PyVal → Bool
  | .vnone, .vnone => true
  | .vbool a, .vbool b => a == b
  | .vbool a, .vint b => (if a then (1 : Int) else 0) == b
  | .vint a, .vbool b => a == (if b then (1 : Int) else 0)
  | .vint a, .vint b => a == b
  | .vstr a, .vstr b => a == b
  | _, _ => false

/-- Python truthiness. -/
def pyTruthy : PyVal → Bool
  | .vnone => false
  | .vbool b => b
  | .vint n => !(n == 0)
  | .vstr s => !s.isEmpty
  | .vlist l => !l.isEmpty
  | .vdict d => !d.isEmpty

/-- Whether a value can be a Python dict key (`hash(v)` succeeds). -/
def hashableB : PyVal → Bool
  | .vlist _ => false
  | .vdict _ => false
  | _ => true

/-- Lexicographic `<` on strings by code point, as Python compares
strings. -/
def strLt : Str → Str → Bool
  | [], [] => false
  | [], _ :: _ => true
  | _ :: _, [] => false
  | a :: as, b :: bs =>
    if a < b then true else if b < a then false else strLt as bs

/-- Python `a < b` where it is defined: `none` means `TypeError`.
Numbers (ints and bools) compare numerically, strings compare
lexicographically by code point.  Containers are unhashable and never
reach the one comparison site (sorting dict keys), so they are mapped to
`TypeError` as well. -/
def pyLtO : PyVal → PyVal → Option Bool
  | .vint a, .vint b => some (decide (a < b))
  | .vint a, .vbool b => some (decide (a < if b then 1 else 0))
  | .vbool a, .vint b => some (decide ((if a then (1 : Int) else 0) < b))
  | .vbool a, .vbool b => some (decide ((if a then (1 : Int) else 0) < if b then 1 else 0))
  | .vstr a, .vstr b => some (strLt a b)
  | _, _ => none

/-- Whether Python can compare `a` and `b` at all. -/
def cmpOK (a b : PyVal) : Bool := (pyLtO a b).isSome

/-- Total Bool version of `a < b` (only consulted on comparable pairs). -/
def pyLtB (a b : PyVal) : Bool := (pyLtO a b).getD false

/-- Nonstrict comparison `a ≤ b`, i.e. `not (b < a)` on comparable
pairs; used to express the order `sorted` produces. -/
def pyLeB (a b : PyVal) : Bool := !(pyLtB b a)

/-- Dict lookup returning the raw `Option`. -/
def dictFind (d : List (Str × PyVal)) (k : Str) : Option PyVal :=
  (d.find? (fun p => p.1 == k)).map (fun p => p.2)

/-- Python `v.get(k)` (default `None`): `AttributeError` unless `v` is a
dict. -/
def dictGetE (v : PyVal) (k : Str) : Except PyErr PyVal :=
  match v with
  | .vdict d => .ok ((dictFind d k).getD .vnone)
  | _ => .error .attributeError

/-- Python `v.pop(k)` restricted to its effect on the mapping (the code
always pops keys it has just read). -/
def dictRemove (v : PyVal) (k : Str) : PyVal :=
  match v with
  | .vdict d => .vdict (d.filter (fun p => !(p.1 == k)))
  | x => x

/-- Python `len(v)`: defined for strings, lists and dicts, `TypeError`
otherwise (in particular `len(None)` raises). -/
def pyLenE : PyVal → Except PyErr Nat
  | .vstr s => .ok s.length
  | .vlist l => .ok l.length
  | .vdict d => .ok d.length
  | _ => .error .typeError

/-- Python iteration `for x in v`: lists yield elements, strings yield
one-character strings, dicts yield their keys. -/
def pyIterE : PyVal → Except PyErr (List PyVal)
  | .vlist l => .ok l
  | .vstr s => .ok (s.map (fun c => .vstr [c]))
  | .vdict d => .ok (d.map (fun p => .vstr p.1))
  | _ => .error .typeError

/-- Python `v[0]`, used on values whose `len` was just checked to be
positive; non-sequences raise. -/
def pyIndex0E : PyVal → Except PyErr PyVal
  | .vlist (x :: _) => .ok x
  | .vstr (c :: _) => .ok (.vstr [c])
  | _ => .error .typeError

/-- Python membership `t in v` for a string `t`, as used on the record
description: substring test on strings, element test on lists, key test
on dicts, `TypeError` otherwise. -/
def containsE (t : Str) : PyVal → Except PyErr Bool
  | .vstr s => .ok (hasSub t s)
  | .vlist l => .ok (l.any (fun x => pyEqB (.vstr t) x))
  | .vdict d => .ok (d.any (fun p => p.1 == t))
  | _ => .error .typeError

/-- Python `v.lower()`: only strings have the method. -/
def pyLowerE : PyVal → Except PyErr Str
  | .vstr s => .ok (lowStr s)
  | _ => .error .attributeError

/-- Effectful `List.map` in `Except`, evaluating left to right exactly
like a Python list comprehension. -/
def mapME (f : α → Except PyErr β) : List α → Except PyErr (List β)
  | [] => .ok []
  | a :: l => do
    let b ← f a
    let bs ← mapME f l
    pure (b :: bs)

/-- One raw record of the fetched page: the `{id, type, attributes}`
envelope of the catalog JSON (`item.get('id')`, `item.get('type')`,
`item.get('attributes')`). -/
structure RawItem where
  id : PyVal
  itemType : PyVal
  attributes : PyVal

/-- The `Layer` class: `id` and `attributes`. -/
structure LayerObj where
  id : PyVal
  attributes : PyVal

/-- The `Metadata` class: `id` and `attributes`. -/
structure MetadataObj where
  id : PyVal
  attributes : PyVal

/-- The `Vocabulary` class: derived `id` (from `attributes.resource.id`)
and `attributes`. -/
structure VocabularyObj where
  id : PyVal
  attributes : PyVal

/-- The `Dataset` class after `__init__` (also covers `Table`, which is
a `Dataset` subclass distinguished only by its type tag, recorded in
`isTable`): the nested children have been extracted and `attributes`
holds the possibly-popped mapping. -/
structure DatasetObj where
  id : PyVal
  layers : List LayerObj
  attributes : PyVal
  metadata : Option MetadataObj
  vocabulary : Option VocabularyObj
  isTable : Bool

/-- An element of a built collection: a `Dataset`/`Table` or a `Layer`. -/
inductive PyObj where
  | dataset (d : DatasetObj)
  | layer (l : LayerObj)

/-- The `attributes` field of a collection element, as read by
`order_results`. -/
def PyObj.attrs : PyObj → PyVal
  | .dataset d => d.attributes
  | .layer l => l.attributes

/-- The `id` of a collection element. -/
def PyObj.objId : PyObj → PyVal
  | .dataset d => d.id
  | .layer l => l.id

/-- `Layer.__init__` with `attributes` supplied and no `id_hash`:
`id = attributes.get('id', None)`, `attributes = attributes.get('attributes', None)`,
or both `None` when the argument is falsy. -/
def Layer.fromAttrs (v : PyVal) : Except PyErr LayerObj :=
  if pyTruthy v then do
    let i ← dictGetE v "id".data
    let a ← dictGetE v "attributes".data
    pure ⟨i, a⟩
  else pure ⟨.vnone, .vnone⟩

/-- `Layer.__init__` with both arguments, as called from
`filter_results` (`Layer(id_hash=item.get('id'), attributes=item.get('attributes'))`):
`if not id_hash:` the id and attributes are both taken from the
`attributes` argument (`Layer.fromAttrs`); for a truthy `id_hash` the id
is `id_hash` and the attributes are fetched from the server
(`self.get_layer()`, modelled by the explicit `fetchL` function), the
`attributes` argument being ignored on that branch. -/
def Layer.init (fetchL : PyVal → PyVal) (idv attrs : PyVal) :
    Except PyErr LayerObj :=
  if pyTruthy idv then pure ⟨idv, fetchL idv⟩
  else Layer.fromAttrs attrs

/-- `Metadata.__init__`: requires `attributes.get('type') == 'metadata'`,
else raises `ValueError`. -/
def Metadata.make (v : PyVal) : Except PyErr MetadataObj := do
  let t ← dictGetE v "type".data
  if pyEqB t (.vstr "metadata".data) then do
    let i ← dictGetE v "id".data
    let a ← dictGetE v "attributes".data
    pure ⟨i, a⟩
  else .error .valueErrorMetadata

/-- `Vocabulary.__init__`: requires `attributes.get('type') == 'vocabulary'`;
the id is the nested `attributes.resource.id`. -/
def Vocabulary.make (v : PyVal) : Except PyErr VocabularyObj := do
  let t ← dictGetE v "type".data
  if pyEqB t (.vstr "vocabulary".data) then do
    let a ← dictGetE v "attributes".data
    let r ← dictGetE a "resource".data
    let i ← dictGetE r "id".data
    pure ⟨i, a⟩
  else .error .valueErrorVocabulary

/-- The `layer` step of `Dataset.__init__`:
`if len(self.attributes.get('layer')) > 0:` build the `Layer` children
from the list and pop the key, else leave the attributes untouched. -/
def Dataset.layerPhase (a : PyVal) : Except PyErr (List LayerObj × PyVal) := do
  let lv ← dictGetE a "layer".data
  let n ← pyLenE lv
  if 0 < n then do
    let elems ← pyIterE lv
    let ls ← mapME Layer.fromAttrs elems
    pure (ls, dictRemove a "layer".data)
  else pure ([], a)

/-- The `metadata` step of `Dataset.__init__`: wrap the first element
when the list is nonempty and pop the key, else `self.metadata = False`
(modelled as `none`). -/
def Dataset.metaPhase (a : PyVal) : Except PyErr (Option MetadataObj × PyVal) := do
  let mv ← dictGetE a "metadata".data
  let n ← pyLenE mv
  if 0 < n then do
    let first ← pyIndex0E mv
    let md ← Metadata.make first
    pure (some md, dictRemove a "metadata".data)
  else pure (none, a)

/-- The `vocabulary` step of `Dataset.__init__`, analogous to the
metadata step. -/
def Dataset.vocabPhase (a : PyVal) : Except PyErr (Option VocabularyObj × PyVal) := do
  let vv ← dictGetE a "vocabulary".data
  let n ← pyLenE vv
  if 0 < n then do
    let first ← pyIndex0E vv
    let vb ← Vocabulary.make first
    pure (some vb, dictRemove a "vocabulary".data)
  else pure (none, a)

/-- `Dataset.__init__` (and `Table.__init__`, which delegates to it):
falsy `attributes` are replaced by a server fetch (`self.get_dataset()`,
modelled by `fetchD`), then the three extraction phases run in order. -/
def Dataset.make (fetchD : PyVal → PyVal) (idv : PyVal) (attrs : PyVal)
    (isTable : Bool) : Except PyErr DatasetObj := do
  let a0 := if pyTruthy attrs then attrs else fetchD idv
  let (ls, a1) ← Dataset.layerPhase a0
  let (md, a2) ← Dataset.metaPhase a1
  let (vb, a3) ← Dataset.vocabPhase a2
  pure ⟨idv, ls, a3, md, vb, isTable⟩

/-- The matching test of `Collection.filter_results` for one item:
`name = item.get('attributes').get('name').lower()` (so a missing or
non-string name raises), `description = ...get('description')`;
`in_description` holds when the description is truthy and some search
token occurs in it (Python `s in description`, evaluated for every
token), `in_name` when the lowered name is truthy and some token occurs
in it.  Note the source lowercases only the name, never the tokens, and
never lowercases the description. -/
def Collection.matchesE (tokens : List Str) (item : RawItem) :
    Except PyErr Bool := do
  let nameV ← dictGetE item.attributes "name".data
  let name ← pyLowerE nameV
  let descr ← dictGetE item.attributes "description".data
  let inDescription ←
    if pyTruthy descr then do
      let bs ← mapME (fun t => containsE t descr) tokens
      pure (bs.any id)
    else pure false
  let inName := if name.isEmpty then false else tokens.any (fun t => hasSub t name)
  pure (inName || inDescription)

/-- The typed-object construction of `filter_results` for one matching
item: `type == 'dataset'` with provider `csv`/`json` builds a `Table`,
`type == 'dataset'` with provider `!= 'csv'` builds a `Dataset`,
`type == 'layer'` builds a `Layer` from the record's id and attributes
(per `Layer.__init__`, a truthy id fetches the attributes from the
server while a falsy id takes id and attributes from the `attributes`
argument), anything else builds nothing. -/
def Collection.dispatchE (fetchL fetchD : PyVal → PyVal) (item : RawItem) :
    Except PyErr (List PyObj) :=
  if pyEqB item.itemType (.vstr "dataset".data) then do
    let provider ← dictGetE item.attributes "provider".data
    if pyEqB provider (.vstr "csv".data) || pyEqB provider (.vstr "json".data) then do
      let d ← Dataset.make fetchD item.id item.attributes true
      pure [.dataset d]
    else if !(pyEqB provider (.vstr "csv".data)) then do
      let d ← Dataset.make fetchD item.id item.attributes false
      pure [.dataset d]
    else pure []
  else if pyEqB item.itemType (.vstr "layer".data) then do
    let l ← Layer.init fetchL item.id item.attributes
    pure [.layer l]
  else pure []

/-- One iteration of the `filter_results` loop: evaluate the match, and
when it holds build the typed objects. -/
def Collection.processItem (tokens : List Str) (fetchL fetchD : PyVal → PyVal)
    (item : RawItem) : Except PyErr (Bool × List PyObj) := do
  let m ← Collection.matchesE tokens item
  if m then do
    let objs ← Collection.dispatchE fetchL fetchD item
    pure (true, objs)
  else pure (false, [])

/-- The `filter_results` loop with its two accumulators:
`filtered_response` (capped at `limit`) and `collection` (uncapped). -/
def Collection.filterGo (tokens : List Str) (limit : Nat)
    (fetchL fetchD : PyVal → PyVal) (fr : List RawItem) (coll : List PyObj) :
    List RawItem → Except PyErr (List RawItem × List PyObj)
  | [] => .ok (fr, coll)
  | item :: rest => do
    let (m, objs) ← Collection.processItem tokens fetchL fetchD item
    Collection.filterGo tokens limit fetchL fetchD
      (if m && decide (fr.length < limit) then fr ++ [item] else fr)
      (coll ++ objs) rest

/-- `Collection.filter_results`: returns the pair
`(filtered_response, collection)`; the source returns only the second
list, the first is bookkeeping. -/
def Collection.filter_results (tokens : List Str) (limit : Nat)
    (fetchL fetchD : PyVal → PyVal) (page : List RawItem) :
    Except PyErr (List RawItem × List PyObj) :=
  Collection.filterGo tokens limit fetchL fetchD [] [] page

/-- Errors of the collection pipeline: the `ValueError('No items found')`
of `get_datasets`/`get_layers`, the `[Order-error]` of `order_results`,
and any other exception propagating out of `filter_results`. -/
inductive CollErr where
  | noItemsFound
  | orderError
  | runtime (e : PyErr)
deriving DecidableEq

/-- The shared body of `Collection.get_datasets` / `Collection.get_layers`
after the HTTP fetch (the two differ only in the endpoint queried): raise
`ValueError('No items found')` when the fetched page is empty, else
filter it and return the typed collection. -/
def Collection.pageToObjects (tokens : List Str) (limit : Nat)
    (fetchL fetchD : PyVal → PyVal) (page : List RawItem) :
    Except CollErr (List PyObj) :=
  if page.length < 1 then .error .noItemsFound
  else
    match Collection.filter_results tokens limit fetchL fetchD page with
    | .error e => .error (.runtime e)
    | .ok (_, coll) => .ok coll

/-- The association list standing for the dict `d` of `order_results`:
`d[z] = collection_list[n]`.  Assigning to an existing key (Python key
equality) overwrites the value in place and keeps the stored key;
otherwise the new pair is appended. -/
def Collection.updAssoc (d : List (PyVal × PyObj)) (k : PyVal) (c : PyObj) :
    List (PyVal × PyObj) :=
  if d.any (fun p => pyEqB p.1 k) then
    d.map (fun p => if pyEqB p.1 k then (p.1, c) else p)
  else d ++ [(k, c)]

/-- The dict-building loop of `order_results`; an unhashable key value
raises `TypeError` at its iteration. -/
def Collection.buildDictGo (d : List (PyVal × PyObj)) :
    List (PyVal × PyObj) → Except PyErr (List (PyVal × PyObj))
  | [] => .ok d
  | (k, c) :: rest =>
    if hashableB k then Collection.buildDictGo (Collection.updAssoc d k c) rest
    else .error .typeError

/-- Sort direction: `sorted(d, reverse=...)` orders by `<`, reversed
when the flag is set. -/
def Collection.leRel (reverse : Bool) (a b : PyVal) : Bool :=
  if reverse then pyLeB b a else pyLeB a b

/-- Insertion into a sorted list under a Bool relation. -/
def insertB (le : PyVal → PyVal → Bool) (a : PyVal) : List PyVal → List PyVal
  | [] => [a]
  | b :: l => if le a b then a :: b :: l else b :: insertB le a l

/-- Insertion sort under a Bool relation. -/
def insSortB (le : PyVal → PyVal → Bool) : List PyVal → List PyVal
  | [] => []
  | a :: l => insertB le a (insSortB le l)

/-- Pairwise comparability of a key list. -/
def allCmp : List PyVal → Bool
  | [] => true
  | a :: l => l.all (fun b => cmpOK a b) && allCmp l

/-- Python `sorted(keys, reverse=flag)` on the (distinct) dict keys.
CPython raises `TypeError` exactly when the sort attempts an undefined
comparison.  On this value domain comparability is a property of the
pair of type classes (numbers with numbers, strings with strings), so a
key list that is not pairwise comparable forces any correct comparison
sort to attempt an undefined comparison (it must order every pair of
distinct keys), while on a pairwise-comparable list of distinct keys
every comparison is defined and any comparison sort returns the unique
ordered permutation.  The embedding therefore sorts (by insertion)
when the keys are pairwise comparable and raises otherwise. -/
def Collection.pySortedE (reverse : Bool) (ks : List PyVal) :
    Except PyErr (List PyVal) :=
  if allCmp ks then .ok (insSortB (Collection.leRel reverse) ks) else .error .typeError

/-- The body of the `try` block of `order_results`: evaluate every
record's order-key attribute (`c.attributes.get(self.order.lower())`,
which raises when `attributes` is not a mapping), build the key → record
dict, sort its keys, then read the records back in key order. -/
def Collection.tryOrderE (ord : Str) (reverse : Bool) (l : List PyObj) :
    Except PyErr (List PyObj) := do
  let keys ← mapME (fun c => dictGetE c.attrs ord) l
  let d ← Collection.buildDictGo [] (keys.zip l)
  let ks ← Collection.pySortedE reverse (d.map (fun p => p.1))
  pure (ks.filterMap (fun k => (d.find? (fun p => pyEqB p.1 k)).map (fun p => p.2)))

/-- `Collection.order_results`: any exception inside the `try` block is
caught and re-raised as the `[Order-error]` `ValueError`; the sorted
list is truncated to `limit` when longer. -/
def Collection.order_results (ord sort : Str) (limit : Nat) (l : List PyObj) :
    Except CollErr (List PyObj) :=
  match Collection.tryOrderE (lowStr ord) (lowStr sort == "asc".data) l with
  | .error _ => .error .orderError
  | .ok t => .ok (if limit < t.length then t.take limit else t)

/-- `Collection.get_collection` on an already-fetched page: the raw page
(datasets or layers, depending on `object_type`) is filtered and then
ordered. -/
def Collection.get_collection (tokens : List Str) (ord sort : Str) (limit : Nat)
    (fetchL fetchD : PyVal → PyVal) (page : List RawItem) :
    Except CollErr (List PyObj) := do
  let objs ← Collection.pageToObjects tokens limit fetchL fetchD page
  Collection.order_results ord sort limit objs

/-- Decimal digits with structural fuel so that evaluation reduces. -/
def natToStrGo : Nat → Nat → Str
  | 0, _ => []
  | _ + 1, n =>
    if n < 10 then [Char.ofNat (48 + n)]
    else natToStrGo n (n / 10) ++ [Char.ofNat (48 + n % 10)]

/-- Decimal rendering of a natural number. -/
def natToStr (n : Nat) : Str := natToStrGo (n + 1) n

/-- Decimal rendering of an integer. -/
def intToStr (i : Int) : Str :=
  if i < 0 then '-' :: natToStr i.natAbs else natToStr i.natAbs

/-- Rendering of a value inside an f-string (`str(v)`).  Containers are
rendered schematically; no theorem inspects their rendering and the
records the library displays hold scalars in the rendered fields. -/
def pyStrOf : PyVal → Str
  | .vnone => "None".data
  | .vbool b => if b then "True".data else "False".data
  | .vint n => intToStr n
  | .vstr s => s
  | .vlist _ => "<list>".data
  | .vdict _ => "<dict>".data

/-- Join pieces with `', '` (`', '.join(parts)`). -/
def interComma : List Str → Str
  | [] => []
  | [s] => s
  | s :: rest => s ++ ", ".data ++ interComma rest

/-- The sequence handed to `', '.join(v)`: a string joins its characters,
a list must consist of strings (`TypeError` otherwise, and in particular
`join(None)` raises `TypeError`), a dict joins its keys. -/
def joinArgE : PyVal → Except PyErr (List Str)
  | .vstr s => .ok (s.map (fun c => [c]))
  | .vlist l =>
    mapME (fun x => match x with | .vstr s => .ok s | _ => .error .typeError) l
  | .vdict d => .ok (d.map (fun p => p.1))
  | _ => .error .typeError

/-- Python `', '.join(v)`. -/
def joinCommaE (v : PyVal) : Except PyErr Str := do
  let parts ← joinArgE v
  pure (interComma parts)

/-- The kind dispatch at the top of `html_box`: `type(item) == Layer`,
`type(item) == Dataset or type(item) == Table`, or anything else. -/
inductive ItemKind where
  | layerK
  | datasetK
  | unknownK
deriving DecidableEq

/-- `html_box(item)`: renders the display block for a record.  The
embedding follows the evaluation order of the source: `url_link` is
assigned only for known kinds; `table_statement` reads `provider`,
`connectorUrl` and `tableName` from the attributes (raising when the
attributes are not a mapping); the final f-string then evaluates
`url_link` (a `NameError` for an unknown kind), the record name,
`', '.join(item.attributes.get('application')).upper()` (a `TypeError`
when the `application` key is absent, since `join(None)` raises), and
the `updatedAt` / `published` fields. -/
def html_box (kind : ItemKind) (server : Str) (idv : PyVal) (attrs : PyVal) :
    Except PyErr Str := do
  let provider ← dictGetE attrs "provider".data
  let connectorUrl ← dictGetE attrs "connectorUrl".data
  let tableName ← dictGetE attrs "tableName".data
  let t0 := "Data source ".data ++ pyStrOf provider
  let t1 :=
    if pyTruthy connectorUrl && pyEqB provider (.vstr "cartodb".data) then
      "Carto table: <a href=".data ++ pyStrOf connectorUrl ++
        " target=\x27_blank\x27>".data ++ pyStrOf tableName ++ "</a>".data
    else t0
  let t2 :=
    if pyTruthy connectorUrl && pyEqB provider (.vstr "csv".data) then
      "CSV Table: <a href=".data ++ pyStrOf connectorUrl ++
        " target=\x27_blank\x27>".data ++ pyStrOf tableName ++ "</a>".data
    else t1
  let tableStatement :=
    if pyEqB provider (.vstr "gee".data) then
      "GEE asset: <a href=\x27https://code.earthengine.google.com/asset=\x27".data ++
        pyStrOf tableName ++ " target=\x27_blank\x27>".data ++ pyStrOf tableName ++
        "</a>".data
    else t2
  match kind with
  | .unknownK => .error .nameError
  | _ => do
    let urlLink :=
      if kind == .layerK then
        server ++ "/v1/layer/".data ++ pyStrOf idv ++
          "?includes=vocabulary,metadata".data
      else
        server ++ "/v1/dataset/".data ++ pyStrOf idv ++
          "?includes=vocabulary,metadata,layer".data
    let kindOfItem := if kind == .layerK then "Layer".data else "Dataset".data
    let nameV ← dictGetE attrs "name".data
    let appV ← dictGetE attrs "application".data
    let appJoined ← joinCommaE appV
    let updatedV ← dictGetE attrs "updatedAt".data
    let publishedV ← dictGetE attrs "published".data
    pure
      ("<div class=\x27item_container\x27 ...><a href=".data ++ urlLink ++
        " target=\x27_blank\x27><b>".data ++ pyStrOf nameV ++ "</b></a><br> ".data ++
        tableStatement ++ " 🗺".data ++ kindOfItem ++ " in ".data ++
        (appJoined.map upCh) ++ ".<br>Last Modified: ".data ++ pyStrOf updatedV ++
        "<br>Connector: None | Published: ".data ++ pyStrOf publishedV ++
        " </div> </div>".data)

/-- The match outcome of `filter_results` for a record whose name is the
string `nm` and whose `description` value is `dv`: some token occurs in
the lowered name (when that is nonempty), or the description is a
nonempty string and some token occurs in it verbatim. -/
def Collection.matchSpec (tokens : List Str) (nm : Str) (dv : PyVal) : Bool :=
  (if (lowStr nm).isEmpty then false
   else tokens.any (fun t => hasSub t (lowStr nm))) ||
  (match dv with
   | .vstr ds => if ds.isEmpty then false else tokens.any (fun t => hasSub t ds)
   | _ => false)

/-- Whether an item matched, read back from `processItem` (meaningful on
runs where the filtering succeeded). -/
def Collection.matchedB (tokens : List Str) (fetchL fetchD : PyVal → PyVal)
    (item : RawItem) : Bool :=
  match Collection.processItem tokens fetchL fetchD item with
  | .ok (m, _) => m
  | .error _ => false

/-- The typed objects an item contributed, read back from
`processItem`. -/
def Collection.objsOf (tokens : List Str) (fetchL fetchD : PyVal → PyVal)
    (item : RawItem) : List PyObj :=
  match Collection.processItem tokens fetchL fetchD item with
  | .ok (_, objs) => objs
  | .error _ => []

/-- The order-key value of a collection element:
`c.attributes.get(order.lower())`, with `None` standing for the
(elsewhere-raising) failure case. -/
def Collection.orderKey (ord : Str) (c : PyObj) : PyVal :=
  match dictGetE c.attrs ord with
  | .ok v => v
  | .error _ => .vnone

/-- A trivial fetch function for concrete runs: every request yields
`None`. -/
def noFetch : PyVal → PyVal := fun _ => .vnone

/-- Attributes of a concrete catalog dataset record named
`Forest loss`. -/
def forestAttrs : PyVal :=
  .vdict [("name".data, .vstr "Forest loss".data),
          ("provider".data, .vstr "gee".data),
          ("layer".data, .vlist []),
          ("metadata".data, .vlist []),
          ("vocabulary".data, .vlist [])]

/-- A concrete dataset-typed raw record. -/
def forestItem : RawItem :=
  ⟨.vstr "d1".data, .vstr "dataset".data, forestAttrs⟩

/-- The typed object `filter_results` builds from `forestItem` (the
empty `layer`/`metadata`/`vocabulary` lists are not popped). -/
def forestObj : PyObj :=
  .dataset ⟨.vstr "d1".data, [], forestAttrs, none, none, false⟩

/-- A concrete widget-typed raw record whose name also matches
`forest`. -/
def widgetItem : RawItem :=
  ⟨.vstr "w1".data, .vstr "widget".data,
    .vdict [("name".data, .vstr "Forest widget".data)]⟩

/-- A concrete record that matches nothing (name `Ocean`). -/
def oceanItem : RawItem :=
  ⟨.vstr "o1".data, .vstr "widget".data,
    .vdict [("name".data, .vstr "Ocean".data)]⟩

/-- Attributes of a GEE dataset record with no `application` key. -/
def geeAttrsNoApp : PyVal :=
  .vdict [("name".data, .vstr "Tree cover".data),
          ("provider".data, .vstr "gee".data),
          ("published".data, .vbool true)]

/-- Attributes of a dataset record with one layer, one metadata and one
vocabulary child. -/
def richAttrs : PyVal :=
  .vdict [("name".data, .vstr "Rich".data),
          ("layer".data, .vlist [.vdict
            [("id".data, .vstr "l1".data),
             ("attributes".data, .vdict [("name".data, .vstr "L1".data)])]]),
          ("metadata".data, .vlist [.vdict
            [("type".data, .vstr "metadata".data),
             ("id".data, .vstr "m1".data),
             ("attributes".data, .vdict [])]]),
          ("vocabulary".data, .vlist [.vdict
            [("type".data, .vstr "vocabulary".data),
             ("attributes".data, .vdict
               [("resource".data, .vdict [("id".data, .vstr "r1".data)])])]])]

/-- Dataset attributes whose `layer` key is absent. -/
def noLayerAttrs : PyVal :=
  .vdict [("name".data, .vstr "x".data),
          ("metadata".data, .vlist []),
          ("vocabulary".data, .vlist [])]

/-- A collection element named `a`. -/
def objA : PyObj :=
  .dataset ⟨.vstr "a1".data, [], .vdict [("name".data, .vstr "a".data)], none, none, false⟩

/-- A second collection element also named `a` (distinct id). -/
def objA2 : PyObj :=
  .dataset ⟨.vstr "a2".data, [], .vdict [("name".data, .vstr "a".data)], none, none, false⟩

/-- A collection element named `b`. -/
def objB : PyObj :=
  .dataset ⟨.vstr "b1".data, [], .vdict [("name".data, .vstr "b".data)], none, none, false⟩

@[simp]
theorem ok_bind {ε α β : Type} (b : α) (g : α → Except ε β) :
    (Except.ok b >>= g) = g b := rfl

@[simp]
theorem error_bind {ε α β : Type} (e : ε) (g : α → Except ε β) :
    ((Except.error e : Except ε α) >>= g) = .error e := rfl

@[simp]
theorem pure_eq_ok {ε α : Type} (b : α) :
    (pure b : Except ε α) = .ok b := rfl

theorem pyEqB_refl {a : PyVal} (h : hashableB a = true) : pyEqB a a = true := by
  cases a <;> simp_all [pyEqB, hashableB]

theorem pyEqB_symm (a b : PyVal) : pyEqB a b = pyEqB b a := by
  cases a <;> cases b <;> simp [pyEqB, beq_iff_eq, eq_comm]

theorem iteInt_inj {a b : Bool} (h : (if a then (1 : Int) else 0) = (if b then (1 : Int) else 0)) :
    a = b := by
  cases a <;> cases b <;> simp_all

theorem pyEqB_trans {a b c : PyVal} (h1 : pyEqB a b = true)
    (h2 : pyEqB b c = true) : pyEqB a c = true := by
  cases a <;> cases b <;> cases c <;>
    simp only [pyEqB, beq_iff_eq] at h1 h2 ⊢ <;>
    first
      | rfl
      | exact h1.trans h2
      | (rw [h1]; exact h2)
      | (rw [← h2]; exact h1)
      | exact iteInt_inj (h1.trans h2)
      | exact absurd h1 (by decide)
      | exact absurd h2 (by decide)

theorem mem_insertB {le : PyVal → PyVal → Bool} {a x : PyVal} :
    ∀ {l : List PyVal}, x ∈ insertB le a l ↔ x = a ∨ x ∈ l
  | [] => by simp [insertB]
  | b :: l => by
    simp only [insertB]
    split
    · simp
    · simp [mem_insertB (l := l), List.mem_cons]
      tauto

theorem insertB_perm (le : PyVal → PyVal → Bool) (a : PyVal) :
    ∀ l : List PyVal, (insertB le a l).Perm (a :: l)
  | [] => List.Perm.refl _
  | b :: l => by
    simp only [insertB]
    split
    · exact List.Perm.refl _
    · exact ((insertB_perm le a l).cons b).trans (List.Perm.swap a b l)

theorem insSortB_perm (le : PyVal → PyVal → Bool) :
    ∀ l : List PyVal, (insSortB le l).Perm l
  | [] => List.Perm.nil
  | a :: l =>
    (insertB_perm le a (insSortB le l)).trans ((insSortB_perm le l).cons a)

theorem mem_insSortB {le : PyVal → PyVal → Bool} {l : List PyVal} {x : PyVal} :
    x ∈ insSortB le l ↔ x ∈ l :=
  (insSortB_perm le l).mem_iff

theorem pairwise_insertB (le : PyVal → PyVal → Bool) (a : PyVal) :
    ∀ (l : List PyVal), l.Pairwise (fun x y => le x y = true) →
      (∀ x ∈ l, le a x = true ∨ le x a = true) →
      (∀ x ∈ l, ∀ y ∈ l, le a x = true → le x y = true → le a y = true) →
      (insertB le a l).Pairwise (fun x y => le x y = true)
  | [], _, _, _ => by simp [insertB]
  | b :: l, hl, htot, htr => by
    simp only [insertB]
    split
    · rename_i hab
      refine List.Pairwise.cons ?_ hl
      intro z hz
      rcases List.mem_cons.mp hz with rfl | h
      · exact hab
      · exact htr b (by simp) z (by simp [h]) hab (List.rel_of_pairwise_cons hl h)
    · rename_i hab
      have hba : le b a = true := by
        rcases htot b (by simp) with h | h
        · exact absurd h hab
        · exact h
      refine List.Pairwise.cons ?_ ?_
      · intro z hz
        rcases mem_insertB.mp hz with h | h
        · exact h ▸ hba
        · exact List.rel_of_pairwise_cons hl h
      · exact pairwise_insertB le a l (List.Pairwise.of_cons hl)
          (fun x hx => htot x (by simp [hx]))
          (fun x hx y hy => htr x (by simp [hx]) y (by simp [hy]))

theorem pairwise_insSortB (le : PyVal → PyVal → Bool) :
    ∀ (l : List PyVal),
      (∀ x ∈ l, ∀ y ∈ l, le x y = true ∨ le y x = true) →
      (∀ x ∈ l, ∀ y ∈ l, ∀ z ∈ l, le x y = true → le y z = true → le x z = true) →
      (insSortB le l).Pairwise (fun x y => le x y = true)
  | [], _, _ => List.Pairwise.nil
  | a :: l, htot, htr => by
    refine pairwise_insertB le a (insSortB le l) ?_ ?_ ?_
    · exact pairwise_insSortB le l
        (fun x hx y hy => htot x (by simp [hx]) y (by simp [hy]))
        (fun x hx y hy z hz => htr x (by simp [hx]) y (by simp [hy]) z (by simp [hz]))
    · intro x hx
      exact htot a (by simp) x (by simp [mem_insSortB.mp hx])
    · intro x hx y hy
      exact htr a (by simp) x (by simp [mem_insSortB.mp hx]) y
        (by simp [mem_insSortB.mp hy])

theorem mapME_ok_forall {α β : Type} {f : α → Except PyErr β} :
    ∀ {l : List α} {bs : List β}, mapME f l = .ok bs →
      ∀ a ∈ l, ∃ b, f a = .ok b := by
  intro l
  induction l with
  | nil => intro bs _ a ha; cases ha
  | cons x t ih =>
    intro bs h a ha
    cases hfx : f x with
    | error e => rw [mapME, hfx] at h; simp at h
    | ok b =>
      rw [mapME, hfx] at h
      cases hft : mapME f t with
      | error e => rw [hft] at h; simp at h
      | ok bs2 =>
        rcases List.mem_cons.mp ha with rfl | ha2
        · exact ⟨b, hfx⟩
        · exact ih hft a ha2

theorem mapME_ok_eq_map {α β : Type} {f : α → Except PyErr β} (g : α → β) :
    ∀ {l : List α}, (∀ a ∈ l, f a = .ok (g a)) → mapME f l = .ok (l.map g) := by
  intro l
  induction l with
  | nil => intro _; rfl
  | cons x t ih =>
    intro h
    rw [mapME, h x (by simp), ih (fun a ha => h a (by simp [ha]))]
    rfl

theorem mapME_ok_eq {α β : Type} {f : α → Except PyErr β} (d : β) :
    ∀ {l : List α} {bs : List β}, mapME f l = .ok bs →
      bs = l.map (fun a => match f a with | .ok b => b | .error _ => d) := by
  intro l
  induction l with
  | nil => intro bs h; cases h; rfl
  | cons x t ih =>
    intro bs h
    cases hfx : f x with
    | error e => rw [mapME, hfx] at h; simp at h
    | ok b =>
      rw [mapME, hfx] at h
      cases hft : mapME f t with
      | error e => rw [hft] at h; simp at h
      | ok bs2 =>
        rw [hft] at h
        simp only [ok_bind] at h
        cases h
        simp [hfx, ih hft]

theorem strLt_asymm : ∀ {a b : Str}, strLt a b = true → strLt b a = false
  | [], [], h => by simp [strLt] at h
  | [], _ :: _, _ => rfl
  | _ :: _, [], h => by simp [strLt] at h
  | a :: as, b :: bs, h => by
    by_cases hab : a < b
    · have hba : ¬b < a := lt_asymm hab
      simp [strLt, hab, hba]
    · by_cases hba : b < a
      · simp [strLt, hab, hba] at h
      · simp only [strLt, if_neg hab, if_neg hba] at h
        simp only [strLt, if_neg hab, if_neg hba]
        exact strLt_asymm h

theorem strLt_le_trans : ∀ (a b c : Str),
    strLt b a = false → strLt c b = false → strLt c a = false
  | [], b, c, h1, h2 => by cases c <;> simp [strLt]
  | _ :: _, [], _, h1, _ => by simp [strLt] at h1
  | _ :: _, _ :: _, [], _, h2 => by simp [strLt] at h2
  | x :: as, y :: bs, z :: cs, h1, h2 => by
    have hyx : ¬y < x := by
      intro hlt
      simp [strLt, hlt] at h1
    have hzy : ¬z < y := by
      intro hlt
      simp [strLt, hlt] at h2
    have hxy : x ≤ y := not_lt.mp hyx
    have hyz : y ≤ z := not_lt.mp hzy
    have hzx : ¬z < x := not_lt.mpr (hxy.trans hyz)
    by_cases hxz : x < z
    · simp [strLt, hzx, hxz]
    · have hxz2 : x = z := le_antisymm (hxy.trans hyz) (not_lt.mp hxz)
      have hxy2 : x = y := le_antisymm hxy (hxz2 ▸ hyz)
      have hbs : strLt bs as = false := by
        simpa [strLt, hyx, hxy2, lt_irrefl] using h1
      have hcs : strLt cs bs = false := by
        have hyz2 : y = z := by rw [← hxy2, hxz2]
        simpa [strLt, hzy, hyz2, lt_irrefl] using h2
      simp only [strLt, if_neg hzx, if_neg hxz]
      exact strLt_le_trans as bs cs hbs hcs

theorem pyLeB_str (a b : Str) : pyLeB (.vstr a) (.vstr b) = !(strLt b a) := rfl

theorem pyLeB_str_total (a b : Str) :
    pyLeB (.vstr a) (.vstr b) = true ∨ pyLeB (.vstr b) (.vstr a) = true := by
  cases h : strLt b a
  · left; simp [pyLeB_str, h]
  · right; simp [pyLeB_str, strLt_asymm h]

theorem pyLeB_str_trans {a b c : Str} (h1 : pyLeB (.vstr a) (.vstr b) = true)
    (h2 : pyLeB (.vstr b) (.vstr c) = true) :
    pyLeB (.vstr a) (.vstr c) = true := by
  simp only [pyLeB_str, Bool.not_eq_true', Bool.not_eq_false] at h1 h2 ⊢
  exact strLt_le_trans a b c h1 h2

theorem leRel_str_total (rev : Bool) (a b : Str) :
    Collection.leRel rev (.vstr a) (.vstr b) = true ∨
      Collection.leRel rev (.vstr b) (.vstr a) = true := by
  cases rev <;> simp only [Collection.leRel] <;>
    first
      | exact pyLeB_str_total a b
      | exact (pyLeB_str_total b a).symm
      | exact (pyLeB_str_total a b).symm

theorem leRel_str_trans (rev : Bool) {a b c : Str}
    (h1 : Collection.leRel rev (.vstr a) (.vstr b) = true)
    (h2 : Collection.leRel rev (.vstr b) (.vstr c) = true) :
    Collection.leRel rev (.vstr a) (.vstr c) = true := by
  cases rev <;> simp only [Collection.leRel] at h1 h2 ⊢
  · exact pyLeB_str_trans h1 h2
  · exact pyLeB_str_trans h2 h1

theorem pyEqB_vstr_iff {x : PyVal} {s : Str} :
    pyEqB x (.vstr s) = true ↔ x = .vstr s := by
  cases x <;> simp [pyEqB]

theorem bool_eq_of_iff {a b : Bool} (h : a = true ↔ b = true) : a = b := by
  cases a <;> cases b <;> simp_all

theorem zip_map_self {α β : Type} (g : α → β) :
    ∀ (l : List α), (l.map g).zip l = l.map (fun a => (g a, a))
  | [] => rfl
  | a :: t => by simp [zip_map_self g t]

theorem updAssoc_aux_fst (k : PyVal) (c : PyObj) (p : PyVal × PyObj) :
    (if pyEqB p.1 k then (p.1, c) else p).1 = p.1 := by
  split <;> rfl

theorem class_congr {k v : PyVal} (hkv : pyEqB k v = true) (x : PyVal) :
    pyEqB x v = pyEqB x k := by
  apply bool_eq_of_iff
  constructor
  · intro h
    exact pyEqB_trans h (pyEqB_symm k v ▸ hkv)
  · intro h
    exact pyEqB_trans h hkv

theorem filter_len_le_one_of_ddist {d : List (PyVal × PyObj)}
    (hd : d.Pairwise (fun p q => pyEqB p.1 q.1 = false)) (v : PyVal) :
    (d.filter (fun p => pyEqB p.1 v)).length ≤ 1 := by
  induction d with
  | nil => simp
  | cons p t ih =>
    rw [List.filter_cons]
    by_cases hp : pyEqB p.1 v = true
    · rw [if_pos hp]
      have ht : t.filter (fun q => pyEqB q.1 v) = [] := by
        rw [List.filter_eq_nil]
        intro q hq hqv
        have h1 : pyEqB p.1 q.1 = false := List.rel_of_pairwise_cons hd hq
        have h2 : pyEqB p.1 q.1 = true :=
          pyEqB_trans hp (pyEqB_symm q.1 v ▸ hqv)
        rw [h1] at h2
        exact absurd h2 (by decide)
      simp [ht]
    · rw [if_neg hp]
      exact ih (List.Pairwise.of_cons hd)

theorem len_le_one_eq_getLast? {α : Type} :
    ∀ (l : List α), l.length ≤ 1 → l = l.getLast?.toList
  | [], _ => rfl
  | [a], _ => rfl
  | _ :: _ :: _, h => by simp at h

theorem updAssoc_ddist {d : List (PyVal × PyObj)} {k : PyVal} {c : PyObj}
    (hd : d.Pairwise (fun p q => pyEqB p.1 q.1 = false)) :
    (Collection.updAssoc d k c).Pairwise (fun p q => pyEqB p.1 q.1 = false) := by
  unfold Collection.updAssoc
  split
  · rw [List.pairwise_map]
    exact hd.imp (fun {p q} h => by
      rw [updAssoc_aux_fst, updAssoc_aux_fst]
      exact h)
  · rename_i hany
    rw [List.pairwise_append]
    refine ⟨hd, by simp, ?_⟩
    intro p hp q hq
    simp only [List.mem_singleton] at hq
    subst hq
    have hf : d.any (fun p => pyEqB p.1 k) = false := by
      cases h : d.any (fun p => pyEqB p.1 k)
      · rfl
      · exact absurd h hany
    have := List.any_eq_false.mp hf p hp
    simpa using this

theorem updAssoc_keys {d : List (PyVal × PyObj)} {k : PyVal} {c : PyObj}
    {P : PyVal → Prop} (hd : ∀ p ∈ d, P p.1) (hk : P k) :
    ∀ p ∈ Collection.updAssoc d k c, P p.1 := by
  unfold Collection.updAssoc
  split
  · intro p hp
    obtain ⟨q, hq, rfl⟩ := List.mem_map.mp hp
    rw [updAssoc_aux_fst]
    exact hd q hq
  · intro p hp
    rcases List.mem_append.mp hp with h | h
    · exact hd p h
    · simp only [List.mem_singleton] at h
      subst h
      exact hk

theorem updAssoc_keyval {f : PyObj → PyVal} {d : List (PyVal × PyObj)}
    {k : PyVal} {c : PyObj}
    (hd : ∀ p ∈ d, pyEqB p.1 (f p.2) = true) (hk : pyEqB k (f c) = true) :
    ∀ p ∈ Collection.updAssoc d k c, pyEqB p.1 (f p.2) = true := by
  unfold Collection.updAssoc
  split
  · intro p hp
    obtain ⟨q, hq, rfl⟩ := List.mem_map.mp hp
    by_cases hqk : pyEqB q.1 k = true
    · rw [if_pos hqk]
      exact pyEqB_trans hqk hk
    · rw [if_neg hqk]
      exact hd q hq
  · intro p hp
    rcases List.mem_append.mp hp with h | h
    · exact hd p h
    · simp only [List.mem_singleton] at h
      subst h
      exact hk

theorem updAssoc_length (d : List (PyVal × PyObj)) (k : PyVal) (c : PyObj) :
    (Collection.updAssoc d k c).length ≤ d.length + 1 := by
  unfold Collection.updAssoc
  split <;> simp

theorem exists_singleton_of_len {α : Type} {l : List α}
    (hne : l ≠ []) (hle : l.length ≤ 1) : ∃ a, l = [a] := by
  cases l with
  | nil => exact absurd rfl hne
  | cons a t =>
    cases t with
    | nil => exact ⟨a, rfl⟩
    | cons b t2 => simp at hle

theorem updAssoc_filter_val {d : List (PyVal × PyObj)} {k : PyVal} {c : PyObj}
    (hd : d.Pairwise (fun p q => pyEqB p.1 q.1 = false)) (v : PyVal) :
    ((Collection.updAssoc d k c).filter (fun p => pyEqB p.1 v)).map Prod.snd
      = if pyEqB k v = true then [c]
        else (d.filter (fun p => pyEqB p.1 v)).map Prod.snd := by
  unfold Collection.updAssoc
  split
  · rename_i hany
    rw [List.filter_map, List.map_map]
    simp only [Function.comp_def]
    have hfil : (List.filter (fun p : PyVal × PyObj =>
        pyEqB (if pyEqB p.1 k = true then (p.1, c) else p).1 v) d) =
        List.filter (fun p => pyEqB p.1 v) d := by
      apply List.filter_congr
      intro p _
      rw [updAssoc_aux_fst]
    rw [hfil]
    by_cases hkv : pyEqB k v = true
    · rw [if_pos hkv]
      have hvk : ∀ x, pyEqB x v = pyEqB x k := class_congr hkv
      have hne : d.filter (fun p => pyEqB p.1 v) ≠ [] := by
        obtain ⟨e, he, hek⟩ := List.any_eq_true.mp hany
        intro hnil
        have : e ∈ d.filter (fun p => pyEqB p.1 v) :=
          List.mem_filter.mpr ⟨he, by rw [hvk]; exact hek⟩
        rw [hnil] at this
        cases this
      obtain ⟨e, he⟩ := exists_singleton_of_len hne (filter_len_le_one_of_ddist hd v)
      have hmem : e ∈ d.filter (fun p => pyEqB p.1 v) := by rw [he]; simp
      have hek : pyEqB e.1 k = true := by
        rw [← hvk]
        exact (List.mem_filter.mp hmem).2
      rw [he]
      simp [hek]
    · rw [if_neg hkv]
      apply List.map_congr_left
      intro p hp
      have hpv : pyEqB p.1 v = true := (List.mem_filter.mp hp).2
      have hpk : pyEqB p.1 k = false := by
        cases hq : pyEqB p.1 k
        · rfl
        · have hkp : pyEqB k p.1 = true := (pyEqB_symm p.1 k) ▸ hq
          exact absurd (pyEqB_trans hkp hpv) hkv
      simp [hpk]
  · rename_i hany
    rw [List.filter_append]
    by_cases hkv : pyEqB k v = true
    · rw [if_pos hkv]
      have hnil : d.filter (fun p => pyEqB p.1 v) = [] := by
        rw [List.filter_eq_nil]
        intro p hp hpv
        have hpk : pyEqB p.1 k = true := by
          rw [← class_congr hkv]
          exact hpv
        exact hany (List.any_eq_true.mpr ⟨p, hp, hpk⟩)
      rw [hnil]
      simp [hkv]
    · rw [if_neg hkv]
      have : pyEqB k v = false := by
        cases h : pyEqB k v
        · rfl
        · exact absurd h hkv
      simp [this]

theorem buildDictGo_spec (f : PyObj → PyVal) :
    ∀ (pairs : List (PyVal × PyObj)) (d d' : List (PyVal × PyObj)),
      (∀ p ∈ pairs, p.1 = f p.2) →
      d.Pairwise (fun p q => pyEqB p.1 q.1 = false) →
      (∀ p ∈ d, hashableB p.1 = true) →
      (∀ p ∈ d, pyEqB p.1 (f p.2) = true) →
      Collection.buildDictGo d pairs = .ok d' →
      (d'.Pairwise (fun p q => pyEqB p.1 q.1 = false) ∧
       (∀ p ∈ d', hashableB p.1 = true) ∧
       (∀ p ∈ d', pyEqB p.1 (f p.2) = true) ∧
       d'.length ≤ d.length + pairs.length ∧
       (∀ (P : PyVal → Prop), (∀ p ∈ d, P p.1) → (∀ p ∈ pairs, P p.1) →
         ∀ p ∈ d', P p.1) ∧
       (∀ v : PyVal,
         (d'.filter (fun p => pyEqB p.1 v)).map Prod.snd
           = (((d.filter (fun p => pyEqB p.1 v)).map Prod.snd)
               ++ ((pairs.filter (fun p => pyEqB p.1 v)).map Prod.snd)).getLast?.toList))
  | [], d, d', _, hdist, hhash, hkv, hok => by
    rw [Collection.buildDictGo] at hok
    cases hok
    refine ⟨hdist, hhash, hkv, by simp, fun P hP _ => hP, ?_⟩
    intro v
    rw [List.filter_nil, List.map_nil, List.append_nil]
    exact len_le_one_eq_getLast? _
      (by rw [List.length_map]; exact filter_len_le_one_of_ddist hdist v)
  | (k, c) :: rest, d, d', hp, hdist, hhash, hkv, hok => by
    rw [Collection.buildDictGo] at hok
    by_cases hk : hashableB k = true
    · rw [if_pos hk] at hok
      have hkc : k = f c := hp (k, c) (by simp)
      have hkc2 : pyEqB k (f c) = true := by
        rw [← hkc]
        exact pyEqB_refl hk
      have ih := buildDictGo_spec f rest (Collection.updAssoc d k c) d'
        (fun p hq => hp p (by simp [hq]))
        (updAssoc_ddist hdist)
        (updAssoc_keys (P := fun x => hashableB x = true) hhash hk)
        (updAssoc_keyval hkv hkc2)
        hok
      obtain ⟨i1, i2, i3, i4, i5, i6⟩ := ih
      refine ⟨i1, i2, i3, ?_, ?_, ?_⟩
      · calc d'.length ≤ (Collection.updAssoc d k c).length + rest.length := i4
          _ ≤ d.length + 1 + rest.length := by
              have := updAssoc_length d k c
              omega
          _ = d.length + ((k, c) :: rest).length := by simp; omega
      · intro P hPd hPp
        exact i5 P (updAssoc_keys hPd (hPp (k, c) (by simp)))
          (fun p hq => hPp p (by simp [hq]))
      · intro v
        rw [i6 v, updAssoc_filter_val hdist v, List.filter_cons]
        by_cases hkv2 : pyEqB k v = true
        · rw [if_pos hkv2, if_pos (by simpa using hkv2)]
          rw [List.map_cons]
          rw [List.getLast?_append, List.getLast?_append]
          show (((rest.filter _).map Prod.snd).getLast?.or (some c)).toList = _
          rw [show (c :: (rest.filter (fun p => pyEqB p.1 v)).map Prod.snd)
              = [c] ++ (rest.filter (fun p => pyEqB p.1 v)).map Prod.snd from rfl]
          rw [List.getLast?_append]
          show _ = ((((rest.filter _).map Prod.snd).getLast?.or (some c)).or
            ((d.filter _).map Prod.snd).getLast?).toList
          rw [Option.or_assoc]
          rfl
        · have hkv3 : pyEqB k v = false := by
            cases h : pyEqB k v
            · rfl
            · exact absurd h hkv2
          rw [if_neg hkv2, if_neg (by simp [hkv3])]
    · rw [if_neg hk] at hok
      cases hok

theorem buildDictGo_ok_of_hashable :
    ∀ (pairs d : List (PyVal × PyObj)), (∀ p ∈ pairs, hashableB p.1 = true) →
      ∃ d', Collection.buildDictGo d pairs = .ok d'
  | [], d, _ => ⟨d, rfl⟩
  | (k, c) :: rest, d, h => by
    rw [Collection.buildDictGo, if_pos (h (k, c) (by simp))]
    exact buildDictGo_ok_of_hashable rest _ (fun p hq => h p (by simp [hq]))

theorem find?_entry :
    ∀ {d : List (PyVal × PyObj)},
      d.Pairwise (fun p q => pyEqB p.1 q.1 = false) →
      (∀ p ∈ d, hashableB p.1 = true) →
      ∀ e ∈ d, d.find? (fun p => pyEqB p.1 e.1) = some e := by
  intro d
  induction d with
  | nil => intro _ _ e he; cases he
  | cons h t ih =>
    intro hdist hhash e he
    rcases List.mem_cons.mp he with rfl | het
    · rw [List.find?_cons_of_pos]
      exact pyEqB_refl (hhash e (by simp))
    · rw [List.find?_cons_of_neg]
      · exact ih (List.Pairwise.of_cons hdist) (fun p hp => hhash p (by simp [hp])) e het
      · intro hcontra
        rw [List.rel_of_pairwise_cons hdist het] at hcontra
        exact Bool.noConfusion hcontra

theorem filterMap_find_eq_map_snd (d : List (PyVal × PyObj)) :
    ∀ (xs : List (PyVal × PyObj)),
      (∀ e ∈ xs, d.find? (fun p => pyEqB p.1 e.1) = some e) →
      (xs.map Prod.fst).filterMap
          (fun k => (d.find? (fun p => pyEqB p.1 k)).map Prod.snd)
        = xs.map Prod.snd
  | [], _ => rfl
  | e :: t, h => by
    have ht := filterMap_find_eq_map_snd d t (fun q hq => h q (by simp [hq]))
    simp [List.filterMap_cons, h e (by simp), ht]

theorem perm_filterMap {α β : Type} (f : α → Option β) {l₁ l₂ : List α}
    (h : l₁.Perm l₂) : (l₁.filterMap f).Perm (l₂.filterMap f) := by
  induction h with
  | nil => exact List.Perm.refl _
  | cons x _ ih =>
    rw [List.filterMap_cons, List.filterMap_cons]
    cases f x
    · exact ih
    · exact ih.cons _
  | swap x y l =>
    rw [List.filterMap_cons, List.filterMap_cons,
      List.filterMap_cons, List.filterMap_cons]
    cases f x <;> cases f y <;>
      first
        | exact List.Perm.refl _
        | exact (List.Perm.refl _).cons _
        | exact List.Perm.swap _ _ _
  | trans _ _ ih1 ih2 => exact ih1.trans ih2

theorem allCmp_of_str :
    ∀ {ks : List PyVal}, (∀ k ∈ ks, ∃ s, k = .vstr s) → allCmp ks = true
  | [], _ => rfl
  | a :: t, h => by
    rw [allCmp]
    obtain ⟨s, hs⟩ := h a (by simp)
    rw [Bool.and_eq_true]
    refine ⟨?_, allCmp_of_str (fun k hk => h k (by simp [hk]))⟩
    rw [List.all_eq_true]
    intro b hb
    obtain ⟨s2, hs2⟩ := h b (by simp [hb])
    subst hs hs2
    rfl

theorem orderKey_eq {ord : Str} {c : PyObj} {b : PyVal}
    (h : dictGetE c.attrs ord = .ok b) : Collection.orderKey ord c = b := by
  rw [Collection.orderKey, h]

theorem vstr_pyEqB_iff {s : Str} {x : PyVal} :
    pyEqB (.vstr s) x = true ↔ x = .vstr s := by
  cases x <;> simp [pyEqB, beq_iff_eq]
  exact eq_comm

theorem pairwise_filterMap_transfer {α β : Type} {R : α → α → Prop}
    {S : β → β → Prop} (F : α → Option β) :
    ∀ (ks : List α), ks.Pairwise R →
      (∀ k ∈ ks, ∀ k2 ∈ ks, ∀ c c2, F k = some c → F k2 = some c2 →
        R k k2 → S c c2) →
      (ks.filterMap F).Pairwise S
  | [], _, _ => List.Pairwise.nil
  | k :: t, hR, hc => by
    rw [List.filterMap_cons]
    have ht := pairwise_filterMap_transfer F t (List.Pairwise.of_cons hR)
      (fun k1 h1 k2 h2 c c2 f1 f2 r =>
        hc k1 (by simp [h1]) k2 (by simp [h2]) c c2 f1 f2 r)
    cases hFk : F k with
    | none => exact ht
    | some c =>
      refine List.Pairwise.cons ?_ ht
      intro c2 hc2
      obtain ⟨k2, hk2, hFk2⟩ := List.mem_filterMap.mp hc2
      exact hc k (by simp) k2 (by simp [hk2]) c c2 hFk hFk2
        (List.rel_of_pairwise_cons hR hk2)

theorem tryOrderE_ok_spec {ord : Str} {rev : Bool} {l r : List PyObj}
    (hok : Collection.tryOrderE ord rev l = .ok r) :
    ∃ d : List (PyVal × PyObj),
      (∀ c ∈ l, dictGetE c.attrs ord = .ok (Collection.orderKey ord c)) ∧
      Collection.buildDictGo []
        (l.map (fun c => (Collection.orderKey ord c, c))) = .ok d ∧
      allCmp (d.map Prod.fst) = true ∧
      r = (insSortB (Collection.leRel rev) (d.map Prod.fst)).filterMap
            (fun k => (d.find? (fun p => pyEqB p.1 k)).map Prod.snd) := by
  rw [Collection.tryOrderE] at hok
  cases hkeys : mapME (fun c => dictGetE c.attrs ord) l with
  | error e => rw [hkeys] at hok; exact absurd hok (by simp)
  | ok keys =>
    rw [hkeys] at hok
    simp only [ok_bind] at hok
    have hfa := mapME_ok_forall hkeys
    have hkeq : ∀ c ∈ l, dictGetE c.attrs ord = .ok (Collection.orderKey ord c) := by
      intro c hc
      obtain ⟨b, hb⟩ := hfa c hc
      rw [hb, orderKey_eq hb]
    have hkeys2 : keys = l.map (Collection.orderKey ord) := by
      rw [mapME_ok_eq .vnone hkeys]
      apply List.map_congr_left
      intro c _
      cases h : dictGetE c.attrs ord <;> simp [Collection.orderKey, h]
    subst hkeys2
    rw [zip_map_self] at hok
    cases hd : Collection.buildDictGo []
        (l.map fun c => (Collection.orderKey ord c, c)) with
    | error e => rw [hd] at hok; exact absurd hok (by simp)
    | ok d =>
      rw [hd] at hok
      simp only [ok_bind] at hok
      rw [Collection.pySortedE] at hok
      by_cases hcmp : allCmp (d.map Prod.fst) = true
      · rw [if_pos hcmp] at hok
        simp only [ok_bind] at hok
        refine ⟨d, hkeq, rfl, hcmp, ?_⟩
        exact (Except.ok.inj hok).symm
      · rw [if_neg hcmp] at hok
        exact absurd hok (by simp)

theorem order_results_str_master (ord sort : Str) (limit : Nat) (l : List PyObj)
    (hstr : ∀ c ∈ l, ∃ s, dictGetE c.attrs (lowStr ord) = .ok (.vstr s))
    (hlim : l.length ≤ limit) :
    ∃ (r : List PyObj) (d : List (PyVal × PyObj)),
      Collection.order_results ord sort limit l = .ok r ∧
      d.Pairwise (fun p q => pyEqB p.1 q.1 = false) ∧
      (∀ p ∈ d, ∃ s, p.1 = .vstr s) ∧
      (∀ p ∈ d, pyEqB p.1 (Collection.orderKey (lowStr ord) p.2) = true) ∧
      (∀ v : PyVal,
        (d.filter (fun p => pyEqB p.1 v)).map Prod.snd
          = (l.filter
              (fun c => pyEqB (Collection.orderKey (lowStr ord) c) v)).getLast?.toList) ∧
      r = (insSortB (Collection.leRel (lowStr sort == "asc".data))
            (d.map Prod.fst)).filterMap
            (fun k => (d.find? (fun p => pyEqB p.1 k)).map Prod.snd) ∧
      (∀ e ∈ d, d.find? (fun p => pyEqB p.1 e.1) = some e) := by
  have hgc : ∀ c ∈ l, dictGetE c.attrs (lowStr ord)
      = .ok (Collection.orderKey (lowStr ord) c) := by
    intro c hc
    obtain ⟨s, hs⟩ := hstr c hc
    rw [hs]
    exact congrArg Except.ok (orderKey_eq hs).symm
  have hgstr : ∀ c ∈ l, ∃ s, Collection.orderKey (lowStr ord) c = .vstr s := by
    intro c hc
    obtain ⟨s, hs⟩ := hstr c hc
    exact ⟨s, orderKey_eq hs⟩
  have hkeys : mapME (fun c => dictGetE c.attrs (lowStr ord)) l
      = .ok (l.map (Collection.orderKey (lowStr ord))) :=
    mapME_ok_eq_map (Collection.orderKey (lowStr ord)) hgc
  have hhash : ∀ p ∈ l.map (fun c => (Collection.orderKey (lowStr ord) c, c)),
      hashableB p.1 = true := by
    intro p hp
    obtain ⟨c, hc, rfl⟩ := List.mem_map.mp hp
    obtain ⟨s, hs⟩ := hgstr c hc
    rw [hs]
    rfl
  obtain ⟨d, hd⟩ := buildDictGo_ok_of_hashable
    (l.map (fun c => (Collection.orderKey (lowStr ord) c, c))) [] hhash
  have hspec := buildDictGo_spec (Collection.orderKey (lowStr ord))
    (l.map (fun c => (Collection.orderKey (lowStr ord) c, c))) [] d
    (by
      intro p hp
      obtain ⟨c, hc, rfl⟩ := List.mem_map.mp hp
      rfl)
    List.Pairwise.nil (by simp) (by simp) hd
  obtain ⟨hdist, hdh, hdkv, hdlen, hdP, hdfil⟩ := hspec
  have hdstr : ∀ p ∈ d, ∃ s, p.1 = .vstr s := by
    refine hdP (fun k => ∃ s, k = .vstr s) (by simp) ?_
    intro p hp
    obtain ⟨c, hc, rfl⟩ := List.mem_map.mp hp
    exact hgstr c hc
  have hcmp : allCmp (d.map Prod.fst) = true := by
    apply allCmp_of_str
    intro k hk
    obtain ⟨p, hp, rfl⟩ := List.mem_map.mp hk
    exact hdstr p hp
  have htry : Collection.tryOrderE (lowStr ord) (lowStr sort == "asc".data) l
      = .ok ((insSortB (Collection.leRel (lowStr sort == "asc".data))
          (d.map Prod.fst)).filterMap
          (fun k => (d.find? (fun p => pyEqB p.1 k)).map Prod.snd)) := by
    rw [Collection.tryOrderE, hkeys]
    simp only [ok_bind]
    rw [zip_map_self, hd]
    simp only [ok_bind]
    rw [Collection.pySortedE, if_pos hcmp]
    rfl
  have hrlen : ((insSortB (Collection.leRel (lowStr sort == "asc".data))
      (d.map Prod.fst)).filterMap
      (fun k => (d.find? (fun p => pyEqB p.1 k)).map Prod.snd)).length ≤ limit := by
    calc ((insSortB (Collection.leRel (lowStr sort == "asc".data))
          (d.map Prod.fst)).filterMap
          (fun k => (d.find? (fun p => pyEqB p.1 k)).map Prod.snd)).length
        ≤ (insSortB (Collection.leRel (lowStr sort == "asc".data))
            (d.map Prod.fst)).length := List.length_filterMap_le _ _
      _ = (d.map Prod.fst).length := (insSortB_perm _ _).length_eq
      _ = d.length := by rw [List.length_map]
      _ ≤ [].length + (l.map
          (fun c => (Collection.orderKey (lowStr ord) c, c))).length := hdlen
      _ ≤ l.length := by rw [List.length_map]; simp
      _ ≤ limit := hlim
  refine ⟨_, d, ?_, hdist, hdstr, hdkv, ?_, rfl, ?_⟩
  · rw [Collection.order_results, htry]
    show Except.ok (if limit < _ then _ else _) = _
    rw [if_neg (by omega)]
  · intro v
    rw [hdfil v]
    congr 1
    rw [List.filter_map]
    rw [List.map_map]
    have h1 : ((fun p : PyVal × PyObj => pyEqB p.1 v)
        ∘ fun c => (Collection.orderKey (lowStr ord) c, c))
        = fun c => pyEqB (Collection.orderKey (lowStr ord) c) v := rfl
    have h2 : (Prod.snd ∘ fun c : PyObj =>
        (Collection.orderKey (lowStr ord) c, c)) = id := rfl
    rw [List.filter_nil, List.map_nil, List.nil_append, h1, h2, List.map_id]
  · intro e he
    exact find?_entry hdist
      (fun p hp => by obtain ⟨s, hs⟩ := hdstr p hp; rw [hs]; rfl) e he

theorem processItem_matchedB {tokens : List Str} {fL fD : PyVal → PyVal}
    {i : RawItem} {m : Bool} {objs : List PyObj}
    (h : Collection.processItem tokens fL fD i = .ok (m, objs)) :
    Collection.matchedB tokens fL fD i = m ∧
      Collection.objsOf tokens fL fD i = objs := by
  rw [Collection.matchedB, Collection.objsOf, h]
  exact ⟨rfl, rfl⟩

theorem filterGo_ok_processed {tokens : List Str} {limit : Nat}
    {fL fD : PyVal → PyVal} :
    ∀ {page : List RawItem} {fr0 fr : List RawItem} {coll0 coll : List PyObj},
      Collection.filterGo tokens limit fL fD fr0 coll0 page = .ok (fr, coll) →
      ∀ i ∈ page, ∃ m objs, Collection.processItem tokens fL fD i = .ok (m, objs) := by
  intro page
  induction page with
  | nil => intro fr0 fr coll0 coll _ i hi; cases hi
  | cons x rest ih =>
    intro fr0 fr coll0 coll hok i hi
    rw [Collection.filterGo] at hok
    cases hpi : Collection.processItem tokens fL fD x with
    | error e => rw [hpi] at hok; exact absurd hok (by simp)
    | ok p =>
      rw [hpi] at hok
      simp only [ok_bind] at hok
      rcases List.mem_cons.mp hi with rfl | hi2
      · exact ⟨p.1, p.2, hpi⟩
      · exact ih hok i hi2

theorem filterGo_ok_coll_mem {tokens : List Str} {limit : Nat}
    {fL fD : PyVal → PyVal} :
    ∀ {page : List RawItem} {fr0 fr : List RawItem} {coll0 coll : List PyObj},
      Collection.filterGo tokens limit fL fD fr0 coll0 page = .ok (fr, coll) →
      ∀ o : PyObj, o ∈ coll ↔ o ∈ coll0 ∨
        ∃ i ∈ page, o ∈ Collection.objsOf tokens fL fD i := by
  intro page
  induction page with
  | nil =>
    intro fr0 fr coll0 coll hok o
    rw [Collection.filterGo] at hok
    cases hok
    simp
  | cons x rest ih =>
    intro fr0 fr coll0 coll hok o
    rw [Collection.filterGo] at hok
    cases hpi : Collection.processItem tokens fL fD x with
    | error e => rw [hpi] at hok; exact absurd hok (by simp)
    | ok p =>
      rw [hpi] at hok
      simp only [ok_bind] at hok
      obtain ⟨-, hobjs⟩ := processItem_matchedB
        (show Collection.processItem tokens fL fD x = .ok (p.1, p.2) by rw [hpi])
      have := ih hok o
      rw [this]
      simp only [List.mem_append, List.mem_cons]
      constructor
      · rintro ((h | h) | ⟨i, hi, ho⟩)
        · exact Or.inl h
        · exact Or.inr ⟨x, Or.inl rfl, by rw [hobjs]; exact h⟩
        · exact Or.inr ⟨i, Or.inr hi, ho⟩
      · rintro (h | ⟨i, hi | hi, ho⟩)
        · exact Or.inl (Or.inl h)
        · subst hi
          rw [hobjs] at ho
          exact Or.inl (Or.inr ho)
        · exact Or.inr ⟨i, hi, ho⟩

theorem filterGo_ok_fr {tokens : List Str} {limit : Nat}
    {fL fD : PyVal → PyVal} :
    ∀ {page : List RawItem} {fr0 fr : List RawItem} {coll0 coll : List PyObj},
      Collection.filterGo tokens limit fL fD fr0 coll0 page = .ok (fr, coll) →
      fr = fr0 ++ (page.filter
        (Collection.matchedB tokens fL fD)).take (limit - fr0.length) := by
  intro page
  induction page with
  | nil =>
    intro fr0 fr coll0 coll hok
    rw [Collection.filterGo] at hok
    cases hok
    simp
  | cons x rest ih =>
    intro fr0 fr coll0 coll hok
    rw [Collection.filterGo] at hok
    cases hpi : Collection.processItem tokens fL fD x with
    | error e => rw [hpi] at hok; exact absurd hok (by simp)
    | ok p =>
      rw [hpi] at hok
      simp only [ok_bind] at hok
      obtain ⟨hm, -⟩ := processItem_matchedB
        (show Collection.processItem tokens fL fD x = .ok (p.1, p.2) by rw [hpi])
      rw [List.filter_cons, hm]
      cases hem : p.1 with
      | false =>
        rw [if_neg (by simp)]
        rw [hem] at hok
        simp only [Bool.false_and, if_neg (Bool.false_ne_true)] at hok
        exact ih hok
      | true =>
        rw [if_pos rfl]
        rw [hem] at hok
        simp only [Bool.true_and] at hok
        by_cases hlen : fr0.length < limit
        · rw [if_pos (by simpa using hlen)] at hok
          have := ih hok
          rw [this]
          have hlen2 : limit - fr0.length = (limit - (fr0 ++ [x]).length) + 1 := by
            simp only [List.length_append, List.length_cons, List.length_nil]
            omega
          rw [hlen2, List.take_succ_cons, List.append_assoc]
          rfl
        · rw [if_neg (by simpa using hlen)] at hok
          have := ih hok
          rw [this]
          have h0 : limit - fr0.length = 0 := by omega
          rw [h0]
          rfl

theorem filterGo_nomatch {tokens : List Str} {limit : Nat}
    {fL fD : PyVal → PyVal} :
    ∀ (page : List RawItem) (fr0 : List RawItem) (coll0 : List PyObj),
      (∀ i ∈ page, Collection.processItem tokens fL fD i = .ok (false, [])) →
      Collection.filterGo tokens limit fL fD fr0 coll0 page = .ok (fr0, coll0)
  | [], _, _, _ => rfl
  | x :: rest, fr0, coll0, h => by
    rw [Collection.filterGo, h x (by simp)]
    simp only [ok_bind, Bool.false_and, if_neg (Bool.false_ne_true), List.append_nil]
    exact filterGo_nomatch rest fr0 coll0 (fun i hi => h i (by simp [hi]))

theorem order_results_nil (ord sort : Str) (limit : Nat) :
    Collection.order_results ord sort limit [] = .ok [] := by
  simp [Collection.order_results, Collection.tryOrderE, mapME,
    Collection.buildDictGo, Collection.pySortedE, allCmp, insSortB]

theorem Dataset.make_parts {fD : PyVal → PyVal} {idv attrs : PyVal} {tb : Bool}
    {ds : DatasetObj} (hok : Dataset.make fD idv attrs tb = .ok ds) :
    ∃ ls a1 md a2 vb a3,
      Dataset.layerPhase (if pyTruthy attrs then attrs else fD idv)
        = .ok (ls, a1) ∧
      Dataset.metaPhase a1 = .ok (md, a2) ∧
      Dataset.vocabPhase a2 = .ok (vb, a3) ∧
      ds = ⟨idv, ls, a3, md, vb, tb⟩ := by
  rw [Dataset.make] at hok
  cases h1 : Dataset.layerPhase (if pyTruthy attrs then attrs else fD idv) with
  | error e => rw [h1] at hok; exact absurd hok (by simp)
  | ok p1 =>
    rw [h1] at hok
    simp only [ok_bind] at hok
    cases h2 : Dataset.metaPhase p1.2 with
    | error e => rw [h2] at hok; exact absurd hok (by simp)
    | ok p2 =>
      rw [h2] at hok
      simp only [ok_bind] at hok
      cases h3 : Dataset.vocabPhase p2.2 with
      | error e => rw [h3] at hok; exact absurd hok (by simp)
      | ok p3 =>
        rw [h3] at hok
        simp only [ok_bind] at hok
        refine ⟨p1.1, p1.2, p2.1, p2.2, p3.1, p3.2, rfl, by exact h2,
          by exact h3, ?_⟩
        exact (Except.ok.inj hok).symm

theorem Dataset.make_id {fD : PyVal → PyVal} {idv attrs : PyVal} {tb : Bool}
    {ds : DatasetObj} (hok : Dataset.make fD idv attrs tb = .ok ds) :
    ds.id = idv := by
  obtain ⟨ls, a1, md, a2, vb, a3, -, -, -, rfl⟩ := Dataset.make_parts hok
  rfl

theorem dispatchE_nonempty_iff {fL fD : PyVal → PyVal} {i : RawItem}
    {objs : List PyObj} (hok : Collection.dispatchE fL fD i = .ok objs) :
    objs ≠ [] ↔ (pyEqB i.itemType (.vstr "dataset".data) = true ∨
      pyEqB i.itemType (.vstr "layer".data) = true) := by
  rw [Collection.dispatchE] at hok
  by_cases hds : pyEqB i.itemType (.vstr "dataset".data) = true
  · rw [if_pos hds] at hok
    simp only [hds, true_or, iff_true]
    cases hprov : dictGetE i.attributes "provider".data with
    | error e => rw [hprov] at hok; exact absurd hok (by simp)
    | ok prov =>
      rw [hprov] at hok
      simp only [ok_bind] at hok
      by_cases hcsv : pyEqB prov (.vstr "csv".data) = true
      · rw [if_pos (by simp [hcsv])] at hok
        cases hmk : Dataset.make fD i.id i.attributes true with
        | error e => rw [hmk] at hok; exact absurd hok (by simp)
        | ok d =>
          rw [hmk] at hok
          simp only [ok_bind] at hok
          cases hok
          simp
      · by_cases hcj : (pyEqB prov (.vstr "csv".data)
            || pyEqB prov (.vstr "json".data)) = true
        · rw [if_pos hcj] at hok
          cases hmk : Dataset.make fD i.id i.attributes true with
          | error e => rw [hmk] at hok; exact absurd hok (by simp)
          | ok d =>
            rw [hmk] at hok
            simp only [ok_bind] at hok
            cases hok
            simp
        · rw [if_neg hcj, if_pos (by simp [hcsv])] at hok
          cases hmk : Dataset.make fD i.id i.attributes false with
          | error e => rw [hmk] at hok; exact absurd hok (by simp)
          | ok d =>
            rw [hmk] at hok
            simp only [ok_bind] at hok
            cases hok
            simp
  · rw [if_neg hds] at hok
    by_cases hl : pyEqB i.itemType (.vstr "layer".data) = true
    · rw [if_pos hl] at hok
      cases hmk : Layer.init fL i.id i.attributes with
      | error e => rw [hmk] at hok; exact absurd hok (by simp)
      | ok l =>
        rw [hmk] at hok
        simp only [ok_bind, pure_eq_ok] at hok
        cases hok
        simp [hl]
    · rw [if_neg hl] at hok
      cases hok
      simp [hds, hl]

theorem processItem_objs_nonempty {tokens : List Str} {fL fD : PyVal → PyVal}
    {i : RawItem} {m : Bool} {objs : List PyObj}
    (hok : Collection.processItem tokens fL fD i = .ok (m, objs)) :
    objs ≠ [] ↔ (m = true ∧ (pyEqB i.itemType (.vstr "dataset".data) = true ∨
      pyEqB i.itemType (.vstr "layer".data) = true)) := by
  rw [Collection.processItem] at hok
  cases hm : Collection.matchesE tokens i with
  | error e => rw [hm] at hok; exact absurd hok (by simp)
  | ok mv =>
    rw [hm] at hok
    simp only [ok_bind] at hok
    cases mv with
    | false =>
      rw [if_neg (by simp)] at hok
      have h1 := Except.ok.inj hok
      have h2 : m = false := (congrArg Prod.fst h1).symm
      have h3 : objs = [] := (congrArg Prod.snd h1).symm
      subst h2
      subst h3
      simp
    | true =>
      rw [if_pos rfl] at hok
      cases hdi : Collection.dispatchE fL fD i with
      | error e => rw [hdi] at hok; exact absurd hok (by simp)
      | ok objs2 =>
        rw [hdi] at hok
        simp only [ok_bind] at hok
        have h1 := Except.ok.inj hok
        have h2 : m = true := (congrArg Prod.fst h1).symm
        have h3 : objs2 = objs := congrArg Prod.snd h1
        subst h2
        subst h3
        simp only [true_and]
        exact dispatchE_nonempty_iff hdi

theorem objsOf_eq_nil_of_untyped {tokens : List Str} {fL fD : PyVal → PyVal}
    {i : RawItem}
    (hds : pyEqB i.itemType (.vstr "dataset".data) = false)
    (hl : pyEqB i.itemType (.vstr "layer".data) = false) :
    Collection.objsOf tokens fL fD i = [] := by
  rw [Collection.objsOf, Collection.processItem]
  cases hm : Collection.matchesE tokens i with
  | error e => rfl
  | ok mv =>
    simp only [ok_bind]
    cases mv with
    | false => rfl
    | true =>
      rw [if_pos rfl, Collection.dispatchE,
        if_neg (by rw [hds]; exact Bool.false_ne_true),
        if_neg (by rw [hl]; exact Bool.false_ne_true)]
      rfl

theorem dictGetE_ok_vdict {a : PyVal} {k : Str} {v : PyVal}
    (h : dictGetE a k = .ok v) : ∃ ad, a = .vdict ad := by
  cases a <;> simp [dictGetE] at h
  exact ⟨_, rfl⟩

theorem dictRemove_get_same (ad : List (Str × PyVal)) (k : Str) :
    dictGetE (dictRemove (.vdict ad) k) k = .ok .vnone := by
  rw [dictRemove, dictGetE, dictFind]
  have : (ad.filter (fun p => !(p.1 == k))).find? (fun p => p.1 == k) = none := by
    rw [List.find?_eq_none]
    intro p hp
    have := (List.mem_filter.mp hp).2
    simp at this
    simp [this]
  rw [this]
  rfl

theorem dictRemove_get_other (ad : List (Str × PyVal)) (k k2 : Str)
    (hne : k2 ≠ k) :
    dictGetE (dictRemove (.vdict ad) k) k2 = dictGetE (.vdict ad) k2 := by
  have hfind : (ad.filter (fun p => !(p.1 == k))).find? (fun p => p.1 == k2)
      = ad.find? (fun p => p.1 == k2) := by
    induction ad with
    | nil => rfl
    | cons p t ih =>
      rw [List.filter_cons]
      by_cases hpk : (p.1 == k) = true
      · have hp1 : p.1 = k := by simpa using hpk
        have hpk2 : (p.1 == k2) = false := by
          cases hx : (p.1 == k2)
          · rfl
          · have hx2 : p.1 = k2 := by simpa using hx
            exact absurd (hp1 ▸ hx2) (Ne.symm hne)
        rw [if_neg (by simp [hpk])]
        simp only [List.find?_cons, hpk2]
        exact ih
      · rw [if_pos (by simp [hpk])]
        cases hpk2 : (p.1 == k2)
        · simp only [List.find?_cons, hpk2]
          exact ih
        · simp only [List.find?_cons, hpk2]
  rw [dictRemove, dictGetE, dictGetE, dictFind, dictFind, hfind]

theorem dictRemove_vdict (ad : List (Str × PyVal)) (k : Str) :
    ∃ ad2, dictRemove (.vdict ad) k = .vdict ad2 := ⟨_, rfl⟩

theorem Dataset.layerPhase_cases {a : PyVal} {ls : List LayerObj} {a1 : PyVal}
    (h : Dataset.layerPhase a = .ok (ls, a1)) :
    ∃ lv n, dictGetE a "layer".data = .ok lv ∧ pyLenE lv = .ok n ∧
      ((0 < n ∧ (∃ elems, pyIterE lv = .ok elems ∧
          mapME Layer.fromAttrs elems = .ok ls) ∧
        a1 = dictRemove a "layer".data) ∨
       (n = 0 ∧ ls = [] ∧ a1 = a)) := by
  rw [Dataset.layerPhase] at h
  cases h1 : dictGetE a "layer".data with
  | error e => rw [h1] at h; exact absurd h (by simp)
  | ok lv =>
    rw [h1] at h
    simp only [ok_bind] at h
    cases h2 : pyLenE lv with
    | error e => rw [h2] at h; exact absurd h (by simp)
    | ok n =>
      rw [h2] at h
      simp only [ok_bind] at h
      by_cases hn : 0 < n
      · rw [if_pos hn] at h
        cases h3 : pyIterE lv with
        | error e => rw [h3] at h; exact absurd h (by simp)
        | ok elems =>
          rw [h3] at h
          simp only [ok_bind] at h
          cases h4 : mapME Layer.fromAttrs elems with
          | error e => rw [h4] at h; exact absurd h (by simp)
          | ok ls2 =>
            rw [h4] at h
            simp only [ok_bind] at h
            have h5 := Except.ok.inj h
            have hls : ls2 = ls := congrArg Prod.fst h5
            have ha : a1 = dictRemove a "layer".data :=
              (congrArg Prod.snd h5).symm
            subst hls
            exact ⟨lv, n, rfl, h2, Or.inl ⟨hn, ⟨elems, h3, h4⟩, ha⟩⟩
      · rw [if_neg hn] at h
        have h5 := Except.ok.inj h
        have hls : ls = [] := (congrArg Prod.fst h5).symm
        have ha : a1 = a := (congrArg Prod.snd h5).symm
        exact ⟨lv, n, rfl, h2, Or.inr ⟨by omega, hls, ha⟩⟩

theorem Dataset.metaPhase_cases {a : PyVal} {md : Option MetadataObj} {a1 : PyVal}
    (h : Dataset.metaPhase a = .ok (md, a1)) :
    ∃ mv n, dictGetE a "metadata".data = .ok mv ∧ pyLenE mv = .ok n ∧
      ((0 < n ∧ (∃ fv m, pyIndex0E mv = .ok fv ∧ Metadata.make fv = .ok m ∧
          md = some m) ∧
        a1 = dictRemove a "metadata".data) ∨
       (n = 0 ∧ md = none ∧ a1 = a)) := by
  rw [Dataset.metaPhase] at h
  cases h1 : dictGetE a "metadata".data with
  | error e => rw [h1] at h; exact absurd h (by simp)
  | ok mv =>
    rw [h1] at h
    simp only [ok_bind] at h
    cases h2 : pyLenE mv with
    | error e => rw [h2] at h; exact absurd h (by simp)
    | ok n =>
      rw [h2] at h
      simp only [ok_bind] at h
      by_cases hn : 0 < n
      · rw [if_pos hn] at h
        cases h3 : pyIndex0E mv with
        | error e => rw [h3] at h; exact absurd h (by simp)
        | ok fv =>
          rw [h3] at h
          simp only [ok_bind] at h
          cases h4 : Metadata.make fv with
          | error e => rw [h4] at h; exact absurd h (by simp)
          | ok m =>
            rw [h4] at h
            simp only [ok_bind] at h
            have h5 := Except.ok.inj h
            have hmd : md = some m := (congrArg Prod.fst h5).symm
            have ha : a1 = dictRemove a "metadata".data :=
              (congrArg Prod.snd h5).symm
            exact ⟨mv, n, rfl, h2, Or.inl ⟨hn, ⟨fv, m, h3, h4, hmd⟩, ha⟩⟩
      · rw [if_neg hn] at h
        have h5 := Except.ok.inj h
        have hmd : md = none := (congrArg Prod.fst h5).symm
        have ha : a1 = a := (congrArg Prod.snd h5).symm
        exact ⟨mv, n, rfl, h2, Or.inr ⟨by omega, hmd, ha⟩⟩

theorem Dataset.vocabPhase_cases {a : PyVal} {vb : Option VocabularyObj}
    {a1 : PyVal} (h : Dataset.vocabPhase a = .ok (vb, a1)) :
    ∃ vv n, dictGetE a "vocabulary".data = .ok vv ∧ pyLenE vv = .ok n ∧
      ((0 < n ∧ (∃ fv m, pyIndex0E vv = .ok fv ∧ Vocabulary.make fv = .ok m ∧
          vb = some m) ∧
        a1 = dictRemove a "vocabulary".data) ∨
       (n = 0 ∧ vb = none ∧ a1 = a)) := by
  rw [Dataset.vocabPhase] at h
  cases h1 : dictGetE a "vocabulary".data with
  | error e => rw [h1] at h; exact absurd h (by simp)
  | ok vv =>
    rw [h1] at h
    simp only [ok_bind] at h
    cases h2 : pyLenE vv with
    | error e => rw [h2] at h; exact absurd h (by simp)
    | ok n =>
      rw [h2] at h
      simp only [ok_bind] at h
      by_cases hn : 0 < n
      · rw [if_pos hn] at h
        cases h3 : pyIndex0E vv with
        | error e => rw [h3] at h; exact absurd h (by simp)
        | ok fv =>
          rw [h3] at h
          simp only [ok_bind] at h
          cases h4 : Vocabulary.make fv with
          | error e => rw [h4] at h; exact absurd h (by simp)
          | ok m =>
            rw [h4] at h
            simp only [ok_bind] at h
            have h5 := Except.ok.inj h
            have hvb : vb = some m := (congrArg Prod.fst h5).symm
            have ha : a1 = dictRemove a "vocabulary".data :=
              (congrArg Prod.snd h5).symm
            exact ⟨vv, n, rfl, h2, Or.inl ⟨hn, ⟨fv, m, h3, h4, hvb⟩, ha⟩⟩
      · rw [if_neg hn] at h
        have h5 := Except.ok.inj h
        have hvb : vb = none := (congrArg Prod.fst h5).symm
        have ha : a1 = a := (congrArg Prod.snd h5).symm
        exact ⟨vv, n, rfl, h2, Or.inr ⟨by omega, hvb, ha⟩⟩

theorem any_map_id {α : Type} (f : α → Bool) :
    ∀ (l : List α), (l.map f).any id = l.any f
  | [] => rfl
  | a :: t => by
    simp only [List.map_cons, List.any_cons, any_map_id f t]
    rfl

theorem matchesE_spec {tokens : List Str} {i : RawItem}
    {ad : List (Str × PyVal)} {nm : Str}
    (hattrs : i.attributes = .vdict ad)
    (hname : dictFind ad "name".data = some (.vstr nm))
    (hdv : (dictFind ad "description".data).getD .vnone = .vnone ∨
      ∃ ds, (dictFind ad "description".data).getD .vnone = .vstr ds) :
    Collection.matchesE tokens i
      = .ok (Collection.matchSpec tokens nm
          ((dictFind ad "description".data).getD .vnone)) := by
  rw [Collection.matchesE, hattrs]
  rw [show dictGetE (.vdict ad) "name".data = .ok (.vstr nm) by
    rw [dictGetE, hname]; rfl]
  simp only [ok_bind]
  rw [show pyLowerE (.vstr nm) = .ok (lowStr nm) from rfl]
  simp only [ok_bind]
  rw [show dictGetE (.vdict ad) "description".data
      = .ok ((dictFind ad "description".data).getD .vnone) from rfl]
  simp only [ok_bind]
  rcases hdv with h | ⟨ds, h⟩
  · rw [h]
    simp [pyTruthy, Collection.matchSpec]
  · rw [h]
    by_cases hempty : ds.isEmpty = true
    · have ht : pyTruthy (PyVal.vstr ds) = false := by
        simp [pyTruthy, hempty]
      rw [ht]
      simp [Collection.matchSpec, hempty]
    · have hne : ds.isEmpty = false := by
        cases hx : ds.isEmpty
        · rfl
        · exact absurd hx hempty
      have ht : pyTruthy (PyVal.vstr ds) = true := by
        simp [pyTruthy, hne]
      rw [ht, mapME_ok_eq_map (f := fun t => containsE t (.vstr ds))
        (fun t => hasSub t ds) (fun t _ => rfl)]
      simp [Collection.matchSpec, hne, any_map_id]

theorem pairwise_ne_mem_eq {α β : Type} (f : α → β) :
    ∀ {l : List α} {a b : α}, l.Pairwise (fun x y => f x ≠ f y) →
      a ∈ l → b ∈ l → f a = f b → a = b := by
  intro l
  induction l with
  | nil => intro a b _ ha; cases ha
  | cons x t ih =>
    intro a b hp ha hb hf
    rcases List.mem_cons.mp ha with rfl | ha2 <;>
      rcases List.mem_cons.mp hb with rfl | hb2
    · rfl
    · exact absurd hf (List.rel_of_pairwise_cons hp hb2)
    · exact absurd hf.symm (List.rel_of_pairwise_cons hp ha2)
    · exact ih (List.Pairwise.of_cons hp) ha2 hb2 hf

/-- C4: for every successfully constructed collection, whatever the
search tokens, page contents, order field and sort directive, the length
of the resulting item sequence never exceeds the `limit` argument
(modelled as a natural number, its Python default being `1000`). -/
theorem claim4_collection_length_le_limit (tokens : List Str) (ord sort : Str)
    (limit : Nat) (fL fD : PyVal → PyVal) (page : List RawItem)
    (r : List PyObj)
    (hok : Collection.get_collection tokens ord sort limit fL fD page = .ok r) :
    r.length ≤ limit := by
  rw [Collection.get_collection] at hok
  cases hpo : Collection.pageToObjects tokens limit fL fD page with
  | error e => rw [hpo] at hok; exact absurd hok (by simp)
  | ok objs =>
    rw [hpo] at hok
    simp only [ok_bind] at hok
    rw [Collection.order_results] at hok
    cases htr : Collection.tryOrderE (lowStr ord)
        (lowStr sort == "asc".data) objs with
    | error e => rw [htr] at hok; exact absurd hok (by simp)
    | ok t =>
      rw [htr] at hok
      have hok2 : Except.ok (ε := CollErr)
          (if limit < t.length then t.take limit else t) = .ok r := hok
      have hr : r = if limit < t.length then t.take limit else t :=
        (Except.ok.inj hok2).symm
      subst hr
      by_cases hl : limit < t.length
      · rw [if_pos hl, List.length_take]
        omega
      · rw [if_neg hl]
        omega

/-- Witness for C4 at a concrete page: building the collection for the
search `forest` over a one-record page yields one item, within the
limit 5. -/
theorem claim4_collection_length_le_limit_witness :
    Collection.get_collection (Collection.tokenize "forest".data)
      "name".data "desc".data 5 noFetch noFetch [forestItem] = .ok [forestObj] ∧
    ([forestObj] : List PyObj).length ≤ 5 :=
  ⟨rfl, claim4_collection_length_le_limit (Collection.tokenize "forest".data)
    "name".data "desc".data 5 noFetch noFetch [forestItem] [forestObj] rfl⟩

/-- C6: the collection build raises the empty-catalog error
(`ValueError('No items found')`) exactly when the fetched page itself is
empty; a non-empty page on which no record matches builds successfully
and yields an empty collection. -/
theorem claim6_empty_catalog (tokens : List Str) (ord sort : Str)
    (limit : Nat) (fL fD : PyVal → PyVal) (page : List RawItem) :
    (Collection.get_collection tokens ord sort limit fL fD page
        = .error .noItemsFound ↔ page = []) ∧
    (page ≠ [] →
      (∀ i ∈ page, Collection.processItem tokens fL fD i = .ok (false, [])) →
      Collection.get_collection tokens ord sort limit fL fD page = .ok []) := by
  constructor
  · constructor
    · intro h
      by_contra hne
      rw [Collection.get_collection] at h
      cases hpo : Collection.pageToObjects tokens limit fL fD page with
      | error e =>
        rw [hpo] at h
        simp only [error_bind] at h
        have he : e = CollErr.noItemsFound := by
          have := Except.error.inj h
          exact this
        subst he
        rw [Collection.pageToObjects] at hpo
        have hlen : ¬page.length < 1 := by
          have := List.length_pos.mpr hne
          omega
        rw [if_neg hlen] at hpo
        cases hf : Collection.filter_results tokens limit fL fD page with
        | error e2 =>
          rw [hf] at hpo
          exact absurd (Except.error.inj hpo) (by simp)
        | ok pr =>
          rw [hf] at hpo
          exact absurd hpo (by simp)
      | ok objs =>
        rw [hpo] at h
        simp only [ok_bind] at h
        rw [Collection.order_results] at h
        cases htr : Collection.tryOrderE (lowStr ord)
            (lowStr sort == "asc".data) objs with
        | error e =>
          rw [htr] at h
          exact absurd (Except.error.inj h) (by simp)
        | ok t =>
          rw [htr] at h
          exact absurd h (by simp)
    · intro h
      subst h
      rfl
  · intro hne hmatch
    have hfil : Collection.filter_results tokens limit fL fD page
        = .ok ([], []) := filterGo_nomatch page [] [] hmatch
    rw [Collection.get_collection]
    have hpo : Collection.pageToObjects tokens limit fL fD page = .ok [] := by
      rw [Collection.pageToObjects]
      have hlen : ¬page.length < 1 := by
        have := List.length_pos.mpr hne
        omega
      rw [if_neg hlen, hfil]
    rw [hpo]
    simp only [ok_bind]
    exact order_results_nil ord sort limit

/-- Witness for C6: the empty page raises the error, and a non-empty
page whose only record does not match builds an empty collection. -/
theorem claim6_empty_catalog_witness :
    Collection.get_collection (Collection.tokenize "forest".data)
      "name".data "desc".data 1000 noFetch noFetch []
        = .error .noItemsFound ∧
    Collection.get_collection (Collection.tokenize "forest".data)
      "name".data "desc".data 1000 noFetch noFetch [oceanItem] = .ok [] :=
  ⟨(claim6_empty_catalog (Collection.tokenize "forest".data) "name".data
      "desc".data 1000 noFetch noFetch []).1.mpr rfl,
   (claim6_empty_catalog (Collection.tokenize "forest".data) "name".data
      "desc".data 1000 noFetch noFetch [oceanItem]).2 (by simp)
      (by
        intro i hi
        simp only [List.mem_singleton] at hi
        subst hi
        rfl)⟩

/-- C8 (code bug in the source): `html_box` is not total on records —
for a dataset record whose attributes lack the `application` key, the
f-string evaluates `', '.join(item.attributes.get('application'))`,
i.e. `join(None)`, which raises `TypeError` instead of returning a
display string. -/
theorem claim8_html_box_raises_on_missing_application :
    html_box .datasetK "https://api.resourcewatch.org".data
        (.vstr "d1".data) geeAttrsNoApp = .error .typeError ∧
    dictGetE geeAttrsNoApp "application".data = .ok .vnone :=
  ⟨rfl, rfl⟩

/-- Counterexample to C1 as stated: the search token `FOREST` is a
case-insensitive substring of the record name `Forest loss` (lowering
both sides exhibits the match), yet the record is filtered out, because
the source lowercases only the name and never the tokens. -/
theorem claim1_counterexample :
    Collection.filter_results (Collection.tokenize "FOREST".data) 1000
        noFetch noFetch [forestItem] = .ok ([], []) ∧
    Collection.tokenize "FOREST".data = ["FOREST".data] ∧
    dictGetE forestItem.attributes "name".data
      = .ok (.vstr "Forest loss".data) ∧
    hasSub (lowStr "FOREST".data) (lowStr "Forest loss".data) = true :=
  ⟨rfl, rfl, rfl, rfl⟩

/-- Counterexample to C2 as stated: with `order='name'` and
`sort='desc'` the two records come out in ascending name order
(`a` before `b`), not descending, because the source passes
`reverse=(sort == 'asc')` to `sorted`. -/
theorem claim2_counterexample :
    Collection.order_results "name".data "desc".data 1000 [objB, objA]
        = .ok [objA, objB] ∧
    Collection.orderKey (lowStr "name".data) objA = .vstr "a".data ∧
    Collection.orderKey (lowStr "name".data) objB = .vstr "b".data ∧
    strLt "a".data "b".data = true :=
  ⟨rfl, rfl, rfl, rfl⟩

/-- Counterexample to C3 as stated: ordering by a key absent from every
record raises nothing — all key values collapse to the single dict key
`None`, no comparison happens, and the last record is returned; an
unrecognized sort directive (`potato`) also raises nothing. -/
theorem claim3_counterexample :
    Collection.order_results "date".data "desc".data 1000 [objB, objA]
        = .ok [objA] ∧
    dictGetE objB.attrs (lowStr "date".data) = .ok .vnone ∧
    dictGetE objA.attrs (lowStr "date".data) = .ok .vnone ∧
    Collection.order_results "name".data "potato".data 1000 [objB, objA]
        = .ok [objA, objB] :=
  ⟨rfl, rfl, rfl, rfl⟩

/-- C1 (amended): a dataset- or layer-typed record of the fetched page
contributes a typed object to the filtered output exactly when some
search token — taken verbatim from `search.strip().split(' ')`, not
lowercased — occurs in the record's lowercased name (when nonempty), or
the description is present (a nonempty string) and some token occurs in
it verbatim; splitting never produces an empty token list (an
empty/whitespace search yields the single empty token, which matches
every record), and records of other types contribute nothing
regardless of matching.  "The record appears in the filtered output" is
rendered directly: some member of the built collection is among the
typed objects the loop iteration for this record constructed
(`Collection.objsOf`), and conversely every object constructed for the
record is retained in the collection. -/
theorem claim1_token_match_membership
    (s : Str) (limit : Nat) (fL fD : PyVal → PyVal) (page : List RawItem)
    (fr : List RawItem) (coll : List PyObj) (r : RawItem)
    (ad : List (Str × PyVal)) (nm : Str)
    (hok : Collection.filter_results (Collection.tokenize s) limit fL fD page
      = .ok (fr, coll))
    (hr : r ∈ page)
    (hattrs : r.attributes = .vdict ad)
    (hname : dictFind ad "name".data = some (.vstr nm))
    (hdv : (dictFind ad "description".data).getD .vnone = .vnone ∨
      ∃ ds, (dictFind ad "description".data).getD .vnone = .vstr ds) :
    ((∃ o ∈ coll, o ∈ Collection.objsOf (Collection.tokenize s) fL fD r) ↔
      (Collection.matchSpec (Collection.tokenize s) nm
          ((dictFind ad "description".data).getD .vnone) = true ∧
        (r.itemType = .vstr "dataset".data ∨
          r.itemType = .vstr "layer".data))) ∧
    (∀ o ∈ Collection.objsOf (Collection.tokenize s) fL fD r, o ∈ coll) := by
  rw [Collection.filter_results] at hok
  obtain ⟨m, objs, hpr⟩ := filterGo_ok_processed hok r hr
  have hms : Collection.matchesE (Collection.tokenize s) r
      = .ok (Collection.matchSpec (Collection.tokenize s) nm
          ((dictFind ad "description".data).getD .vnone)) :=
    matchesE_spec hattrs hname hdv
  have hm : m = Collection.matchSpec (Collection.tokenize s) nm
      ((dictFind ad "description".data).getD .vnone) := by
    have hpr2 := hpr
    rw [Collection.processItem, hms] at hpr2
    simp only [ok_bind] at hpr2
    by_cases hmv : Collection.matchSpec (Collection.tokenize s) nm
        ((dictFind ad "description".data).getD .vnone) = true
    · rw [if_pos hmv] at hpr2
      cases hdisp : Collection.dispatchE fL fD r with
      | error e => rw [hdisp] at hpr2; exact absurd hpr2 (by simp)
      | ok objs2 =>
        rw [hdisp] at hpr2
        simp only [ok_bind, pure_eq_ok] at hpr2
        have := Except.ok.inj hpr2
        rw [hmv]
        exact (congrArg Prod.fst this).symm
    · have hmf : Collection.matchSpec (Collection.tokenize s) nm
          ((dictFind ad "description".data).getD .vnone) = false := by
        cases hx : Collection.matchSpec (Collection.tokenize s) nm
            ((dictFind ad "description".data).getD .vnone)
        · rfl
        · exact absurd hx hmv
      rw [if_neg hmv] at hpr2
      simp only [pure_eq_ok] at hpr2
      have := Except.ok.inj hpr2
      rw [hmf]
      exact (congrArg Prod.fst this).symm
  have hobjs : Collection.objsOf (Collection.tokenize s) fL fD r = objs :=
    (processItem_matchedB hpr).2
  constructor
  · constructor
    · rintro ⟨o, -, hor⟩
      rw [hobjs] at hor
      have hne : objs ≠ [] := List.ne_nil_of_mem hor
      have hdisp := (processItem_objs_nonempty hpr).mp hne
      refine ⟨hm ▸ hdisp.1, ?_⟩
      rcases hdisp.2 with hD | hL
      · exact Or.inl (pyEqB_vstr_iff.mp hD)
      · exact Or.inr (pyEqB_vstr_iff.mp hL)
    · rintro ⟨hmatch, htype⟩
      have hm2 : m = true := hm.trans hmatch
      have htype2 : pyEqB r.itemType (.vstr "dataset".data) = true ∨
          pyEqB r.itemType (.vstr "layer".data) = true := by
        rcases htype with h | h
        · exact Or.inl (by rw [h]; exact pyEqB_vstr_iff.mpr rfl)
        · exact Or.inr (by rw [h]; exact pyEqB_vstr_iff.mpr rfl)
      have hne := (processItem_objs_nonempty hpr).mpr ⟨hm2, htype2⟩
      obtain ⟨o, ho⟩ : ∃ o, o ∈ objs := by
        cases objs with
        | nil => exact absurd rfl hne
        | cons a t => exact ⟨a, by simp⟩
      have hor : o ∈ Collection.objsOf (Collection.tokenize s) fL fD r := by
        rw [hobjs]; exact ho
      refine ⟨o, ?_, hor⟩
      apply (filterGo_ok_coll_mem hok o).mpr
      exact Or.inr ⟨r, hr, hor⟩
  · intro o hor
    apply (filterGo_ok_coll_mem hok o).mpr
    exact Or.inr ⟨r, hr, hor⟩

/-- Witness for C1 (amended) at a concrete page: the `forest` search
finds the `Forest loss` dataset record, and the object built from that
record appears in the output. -/
theorem claim1_token_match_membership_witness :
    ∃ o ∈ ([forestObj] : List PyObj),
      o ∈ Collection.objsOf (Collection.tokenize "forest".data)
        noFetch noFetch forestItem :=
  ((claim1_token_match_membership "forest".data 1000 noFetch noFetch
      [forestItem] [forestItem] [forestObj] forestItem
      [("name".data, .vstr "Forest loss".data),
       ("provider".data, .vstr "gee".data),
       ("layer".data, .vlist []),
       ("metadata".data, .vlist []),
       ("vocabulary".data, .vlist [])] "Forest loss".data
      rfl (by simp) rfl rfl (Or.inl rfl)).1).mpr
    ⟨rfl, Or.inl rfl⟩

/-- C9: a raw record whose type tag is neither `dataset` nor `layer`
(for example `widget`) never contributes a typed object to the output
collection even when it matches — the loop iteration for it constructs
no object at all (`Collection.objsOf` is empty), and every member of
the collection originates from some other record of the page; yet, like
any matching record, it occupies a slot of the limit-capped
`filtered_response` bookkeeping list, which holds exactly the first
`limit` matching records. -/
theorem claim9_untyped_record_no_object
    (tokens : List Str) (limit : Nat) (fL fD : PyVal → PyVal)
    (page : List RawItem) (fr : List RawItem) (coll : List PyObj)
    (r : RawItem)
    (hok : Collection.filter_results tokens limit fL fD page = .ok (fr, coll))
    (htype : pyEqB r.itemType (.vstr "dataset".data) = false ∧
      pyEqB r.itemType (.vstr "layer".data) = false) :
    Collection.objsOf tokens fL fD r = [] ∧
      (∀ o ∈ coll, ∃ i ∈ page, i ≠ r ∧
        o ∈ Collection.objsOf tokens fL fD i) ∧
      fr = (page.filter (Collection.matchedB tokens fL fD)).take limit := by
  rw [Collection.filter_results] at hok
  have hnil : Collection.objsOf tokens fL fD r = [] :=
    objsOf_eq_nil_of_untyped htype.1 htype.2
  refine ⟨hnil, ?_, ?_⟩
  · intro o ho
    rcases (filterGo_ok_coll_mem hok o).mp ho with h0 | ⟨i, hi, hobj⟩
    · simp at h0
    · refine ⟨i, hi, ?_, hobj⟩
      intro hir
      rw [hir, hnil] at hobj
      cases hobj
  · have := filterGo_ok_fr hok
    simpa using this

/-- Witness for C9 at a concrete page: the widget record matching
`forest` yields no typed object but fills the one slot of
`filtered_response`. -/
theorem claim9_untyped_record_no_object_witness :
    Collection.objsOf (Collection.tokenize "forest".data) noFetch noFetch
        widgetItem = [] ∧
      (∀ o ∈ ([] : List PyObj), ∃ i ∈ [widgetItem], i ≠ widgetItem ∧
        o ∈ Collection.objsOf (Collection.tokenize "forest".data)
          noFetch noFetch i) ∧
      [widgetItem] = (([widgetItem].filter
        (Collection.matchedB (Collection.tokenize "forest".data)
          noFetch noFetch))).take 1000 :=
  claim9_untyped_record_no_object (Collection.tokenize "forest".data) 1000
    noFetch noFetch [widgetItem] [widgetItem] [] widgetItem rfl ⟨rfl, rfl⟩

/-- C2 (amended): the direction of the sorted order-key sequence is
inverted relative to the claim — `sorted` is called with
`reverse=(sort.lower() == 'asc')`, so the sequence is DESCENDING when
`sort == "asc"` and ASCENDING otherwise; in particular a collection
built with `order="name"` and `sort="desc"` has its names in ascending
lexicographic order. -/
theorem claim2_sort_direction_inverted
    (ord sort : Str) (limit : Nat) (l r : List PyObj)
    (hok : Collection.order_results ord sort limit l = .ok r)
    (hstr : ∀ c ∈ l, ∃ s, dictGetE c.attrs (lowStr ord) = .ok (.vstr s)) :
    ((lowStr sort == "asc".data) = true →
      r.Pairwise (fun c c2 =>
        pyLeB (Collection.orderKey (lowStr ord) c2)
          (Collection.orderKey (lowStr ord) c) = true)) ∧
    ((lowStr sort == "asc".data) = false →
      r.Pairwise (fun c c2 =>
        pyLeB (Collection.orderKey (lowStr ord) c)
          (Collection.orderKey (lowStr ord) c2) = true)) := by
  rw [Collection.order_results] at hok
  cases htr : Collection.tryOrderE (lowStr ord) (lowStr sort == "asc".data) l with
  | error e => rw [htr] at hok; exact absurd hok (by simp)
  | ok t =>
    rw [htr] at hok
    have hok2 : Except.ok (ε := CollErr)
        (if limit < t.length then t.take limit else t) = .ok r := hok
    have hr : r = if limit < t.length then t.take limit else t :=
      (Except.ok.inj hok2).symm
    obtain ⟨d, hkeys, hd, hcmp, htEq⟩ := tryOrderE_ok_spec htr
    obtain ⟨hdist, hdh, hdkv, -, hdP, -⟩ :=
      buildDictGo_spec (Collection.orderKey (lowStr ord))
        (l.map (fun c => (Collection.orderKey (lowStr ord) c, c))) [] d
        (by
          intro p hp
          obtain ⟨c, hc, rfl⟩ := List.mem_map.mp hp
          rfl)
        List.Pairwise.nil (by simp) (by simp) hd
    have hdstr : ∀ p ∈ d, ∃ s2, p.1 = .vstr s2 := by
      refine hdP (fun k => ∃ s2, k = .vstr s2) (by simp) ?_
      intro p hp
      obtain ⟨c, hc, rfl⟩ := List.mem_map.mp hp
      obtain ⟨s2, hs2⟩ := hstr c hc
      exact ⟨s2, orderKey_eq hs2⟩
    have hkstr : ∀ k ∈ d.map Prod.fst, ∃ s2, k = .vstr s2 := by
      intro k hk
      obtain ⟨p, hp, rfl⟩ := List.mem_map.mp hk
      exact hdstr p hp
    have hsorted : (insSortB (Collection.leRel (lowStr sort == "asc".data))
        (d.map Prod.fst)).Pairwise
        (fun a b => Collection.leRel (lowStr sort == "asc".data) a b = true) := by
      apply pairwise_insSortB
      · intro x hx y hy
        obtain ⟨sx, rfl⟩ := hkstr x hx
        obtain ⟨sy, rfl⟩ := hkstr y hy
        exact leRel_str_total _ sx sy
      · intro x hx y hy z hz h1 h2
        obtain ⟨sx, rfl⟩ := hkstr x hx
        obtain ⟨sy, rfl⟩ := hkstr y hy
        obtain ⟨sz, rfl⟩ := hkstr z hz
        exact leRel_str_trans _ h1 h2
    have hT : t.Pairwise (fun c c2 =>
        Collection.leRel (lowStr sort == "asc".data)
          (Collection.orderKey (lowStr ord) c)
          (Collection.orderKey (lowStr ord) c2) = true) := by
      rw [htEq]
      apply pairwise_filterMap_transfer _ _ hsorted
      intro k hk k2 hk2 c c2 hFk hFk2 hR
      have hkey : ∀ kk ∈ insSortB (Collection.leRel (lowStr sort == "asc".data))
          (d.map Prod.fst), ∀ cc,
          (d.find? (fun p => pyEqB p.1 kk)).map Prod.snd = some cc →
          Collection.orderKey (lowStr ord) cc = kk := by
        intro kk hkk cc hF
        obtain ⟨p, hpfind, hpsnd⟩ : ∃ p, d.find? (fun q => pyEqB q.1 kk)
            = some p ∧ p.2 = cc := by
          cases hf : d.find? (fun q => pyEqB q.1 kk) with
          | none => rw [hf] at hF; cases hF
          | some p => rw [hf] at hF; exact ⟨p, rfl, Option.some.inj hF⟩
        have hpmem : p ∈ d := List.mem_of_find?_eq_some hpfind
        have hppred0 := List.find?_some hpfind
        have hppred : pyEqB p.1 kk = true := hppred0
        have hkv := hdkv p hpmem
        obtain ⟨sp, hsp⟩ := hdstr p hpmem
        rw [hsp] at hkv hppred
        have h1 : Collection.orderKey (lowStr ord) p.2 = .vstr sp :=
          vstr_pyEqB_iff.mp hkv
        have h2 : kk = .vstr sp := vstr_pyEqB_iff.mp hppred
        rw [← hpsnd, h1, h2]
      rw [hkey k hk c hFk, hkey k2 hk2 c2 hFk2]
      exact hR
    have hRfinal : r.Pairwise (fun c c2 =>
        Collection.leRel (lowStr sort == "asc".data)
          (Collection.orderKey (lowStr ord) c)
          (Collection.orderKey (lowStr ord) c2) = true) := by
      rw [hr]
      by_cases hlt : limit < t.length
      · rw [if_pos hlt]
        exact List.Pairwise.sublist (List.take_sublist _ _) hT
      · rw [if_neg hlt]
        exact hT
    constructor
    · intro hrev
      refine hRfinal.imp ?_
      intro a b h
      rw [hrev] at h
      simpa [Collection.leRel] using h
    · intro hrev
      refine hRfinal.imp ?_
      intro a b h
      rw [hrev] at h
      simpa [Collection.leRel] using h

/-- Witness for C2 (amended): with `sort="desc"` the concrete
two-element collection comes out ascending by name. -/
theorem claim2_sort_direction_inverted_witness :
    ([objA, objB] : List PyObj).Pairwise (fun c c2 =>
      pyLeB (Collection.orderKey (lowStr "name".data) c)
        (Collection.orderKey (lowStr "name".data) c2) = true) :=
  (claim2_sort_direction_inverted "name".data "desc".data 1000
      [objB, objA] [objA, objB] rfl
      (by
        intro c hc
        rcases List.mem_cons.mp hc with rfl | hc2
        · exact ⟨"b".data, rfl⟩
        · rcases List.mem_cons.mp hc2 with rfl | hc3
          · exact ⟨"a".data, rfl⟩
          · cases hc3)).2 rfl

theorem buildDict_vnone :
    ∀ (rest : List PyObj) (c0 : PyObj),
      Collection.buildDictGo [(.vnone, c0)]
          (rest.map (fun c => ((.vnone : PyVal), c)))
        = .ok [(.vnone, rest.getLastD c0)]
  | [], c0 => rfl
  | c1 :: rest2, c0 => by
    rw [List.map_cons, Collection.buildDictGo,
      if_pos (show hashableB PyVal.vnone = true from rfl)]
    have hupd : Collection.updAssoc [(.vnone, c0)] .vnone c1
        = [(.vnone, c1)] := rfl
    rw [hupd, buildDict_vnone rest2 c1, List.getLastD_cons]

/-- C3 (amended): ordering raises the `[Order-error]` `ValueError` only
when the `try` block actually raises (an unhashable key value, or key
values that Python cannot compare — e.g. the order field present in some
records and absent in others).  When the order field is absent from ALL
records, every key collapses to the single dict key `None`, nothing is
compared, and ordering succeeds, returning only the last record;
an unrecognized sort directive never raises (this theorem holds for an
arbitrary `sort` string, which is simply treated as the
non-`"asc"`/ascending direction when it is not `"asc"`). -/
theorem claim3_absent_key_no_error
    (ord sort : Str) (limit : Nat) (l : List PyObj)
    (hne : l ≠ []) (hlim : 1 ≤ limit)
    (habs : ∀ c ∈ l, dictGetE c.attrs (lowStr ord) = .ok .vnone) :
    Collection.order_results ord sort limit l = .ok l.getLast?.toList := by
  cases l with
  | nil => exact absurd rfl hne
  | cons c0 rest =>
    have hkeys : mapME (fun c => dictGetE c.attrs (lowStr ord)) (c0 :: rest)
        = .ok ((c0 :: rest).map (fun _ => PyVal.vnone)) :=
      mapME_ok_eq_map (fun _ => PyVal.vnone) habs
    have htry : Collection.tryOrderE (lowStr ord) (lowStr sort == "asc".data)
        (c0 :: rest) = .ok [rest.getLastD c0] := by
      rw [Collection.tryOrderE, hkeys]
      simp only [ok_bind]
      rw [zip_map_self]
      have hmap : (c0 :: rest).map (fun a => ((fun _ => PyVal.vnone) a, a))
          = (PyVal.vnone, c0) :: rest.map (fun c => (PyVal.vnone, c)) := by
        simp
      rw [hmap]
      have hstep : Collection.buildDictGo []
          ((PyVal.vnone, c0) :: rest.map (fun c => (PyVal.vnone, c)))
          = .ok [(.vnone, rest.getLastD c0)] := by
        rw [Collection.buildDictGo,
          if_pos (show hashableB PyVal.vnone = true from rfl)]
        have hupd : Collection.updAssoc [] PyVal.vnone c0
            = [(PyVal.vnone, c0)] := rfl
        rw [hupd]
        exact buildDict_vnone rest c0
      rw [hstep]
      simp only [ok_bind]
      rfl
    have hcomp : Collection.order_results ord sort limit (c0 :: rest)
        = .ok (if limit < ([rest.getLastD c0] : List PyObj).length
            then ([rest.getLastD c0] : List PyObj).take limit
            else [rest.getLastD c0]) := by
      rw [Collection.order_results, htry]
    rw [hcomp, if_neg (by simp; omega), List.getLast?_cons,
      List.getLastD_eq_getLast?]
    rfl

/-- Witness for C3 (amended) at a concrete input: ordering two records
by a field absent from both succeeds and returns the last record. -/
theorem claim3_absent_key_no_error_witness :
    Collection.order_results "date".data "desc".data 1000 [objB, objA]
      = .ok ([objB, objA] : List PyObj).getLast?.toList :=
  claim3_absent_key_no_error "date".data "desc".data 1000 [objB, objA]
    (by simp) (by omega)
    (by
      intro c hc
      rcases List.mem_cons.mp hc with rfl | hc2
      · rfl
      · rcases List.mem_cons.mp hc2 with rfl | hc3
        · rfl
        · cases hc3)

/-- C5: when two records of the collection share an identical order-key
value, ordering (over string order keys, within the limit) succeeds, and
exactly one record with that key value survives into the ordered output:
the last one in encounter order (last-write-wins in the dict build),
never both and never a crash. -/
theorem claim5_duplicate_key_last_write_wins
    (ord sort : Str) (limit : Nat) (l : List PyObj) (i j : Nat)
    (hi : i < l.length) (hj : j < l.length) (_hij : i < j)
    (hstr : ∀ c ∈ l, ∃ s, dictGetE c.attrs (lowStr ord) = .ok (.vstr s))
    (hlim : l.length ≤ limit)
    (_heq : Collection.orderKey (lowStr ord) (l.get ⟨i, hi⟩)
      = Collection.orderKey (lowStr ord) (l.get ⟨j, hj⟩)) :
    ∃ r, Collection.order_results ord sort limit l = .ok r ∧
      r.filter (fun c => pyEqB (Collection.orderKey (lowStr ord) c)
          (Collection.orderKey (lowStr ord) (l.get ⟨j, hj⟩)))
        = (l.filter (fun c => pyEqB (Collection.orderKey (lowStr ord) c)
            (Collection.orderKey (lowStr ord) (l.get ⟨j, hj⟩)))).getLast?.toList ∧
      (r.filter (fun c => pyEqB (Collection.orderKey (lowStr ord) c)
          (Collection.orderKey (lowStr ord) (l.get ⟨j, hj⟩)))).length = 1 := by
  obtain ⟨r, d, hres, hdist, hdstr, hdkv, hdfil, hrEq, hfind⟩ :=
    order_results_str_master ord sort limit l hstr hlim
  have hperm : r.Perm (d.map Prod.snd) := by
    rw [hrEq]
    have h1 := perm_filterMap
      (fun k => (d.find? (fun p => pyEqB p.1 k)).map Prod.snd)
      (insSortB_perm (Collection.leRel (lowStr sort == "asc".data))
        (d.map Prod.fst))
    have h2 := filterMap_find_eq_map_snd d d hfind
    exact h2 ▸ h1
  have hfagree : ∀ p ∈ d,
      pyEqB (Collection.orderKey (lowStr ord) p.2)
        (Collection.orderKey (lowStr ord) (l.get ⟨j, hj⟩))
      = pyEqB p.1 (Collection.orderKey (lowStr ord) (l.get ⟨j, hj⟩)) := by
    intro p hp
    apply bool_eq_of_iff
    constructor
    · intro h
      exact pyEqB_trans (hdkv p hp) h
    · intro h
      have hsym : pyEqB (Collection.orderKey (lowStr ord) p.2) p.1 = true :=
        (pyEqB_symm p.1 (Collection.orderKey (lowStr ord) p.2)) ▸ hdkv p hp
      exact pyEqB_trans hsym h
  have hmfil : (d.map Prod.snd).filter
      (fun c => pyEqB (Collection.orderKey (lowStr ord) c)
        (Collection.orderKey (lowStr ord) (l.get ⟨j, hj⟩)))
      = (d.filter (fun p => pyEqB p.1
          (Collection.orderKey (lowStr ord) (l.get ⟨j, hj⟩)))).map Prod.snd := by
    rw [List.filter_map]
    congr 1
    apply List.filter_congr
    intro p hp
    show pyEqB (Collection.orderKey (lowStr ord) p.2)
        (Collection.orderKey (lowStr ord) (l.get ⟨j, hj⟩))
      = pyEqB p.1 (Collection.orderKey (lowStr ord) (l.get ⟨j, hj⟩))
    exact hfagree p hp
  have hRel : (r.filter (fun c => pyEqB (Collection.orderKey (lowStr ord) c)
      (Collection.orderKey (lowStr ord) (l.get ⟨j, hj⟩)))).Perm
      ((l.filter (fun c => pyEqB (Collection.orderKey (lowStr ord) c)
        (Collection.orderKey (lowStr ord) (l.get ⟨j, hj⟩)))).getLast?.toList) := by
    have hpf := hperm.filter
      (fun c => pyEqB (Collection.orderKey (lowStr ord) c)
        (Collection.orderKey (lowStr ord) (l.get ⟨j, hj⟩)))
    rw [hmfil, hdfil (Collection.orderKey (lowStr ord) (l.get ⟨j, hj⟩))] at hpf
    exact hpf
  have heqlist : r.filter (fun c => pyEqB (Collection.orderKey (lowStr ord) c)
      (Collection.orderKey (lowStr ord) (l.get ⟨j, hj⟩)))
      = (l.filter (fun c => pyEqB (Collection.orderKey (lowStr ord) c)
        (Collection.orderKey (lowStr ord) (l.get ⟨j, hj⟩)))).getLast?.toList := by
    cases hgl : (l.filter (fun c => pyEqB (Collection.orderKey (lowStr ord) c)
        (Collection.orderKey (lowStr ord) (l.get ⟨j, hj⟩)))).getLast? with
    | none =>
      rw [hgl] at hRel
      exact List.perm_nil.mp (by simpa using hRel)
    | some w =>
      rw [hgl] at hRel
      exact List.perm_singleton.mp (by simpa using hRel)
  have hmem : l.get ⟨j, hj⟩ ∈ l.filter
      (fun c => pyEqB (Collection.orderKey (lowStr ord) c)
        (Collection.orderKey (lowStr ord) (l.get ⟨j, hj⟩))) := by
    apply List.mem_filter.mpr
    refine ⟨List.get_mem l j hj, ?_⟩
    obtain ⟨s, hs⟩ := hstr _ (List.get_mem l j hj)
    have hv : Collection.orderKey (lowStr ord) (l.get ⟨j, hj⟩) = .vstr s :=
      orderKey_eq hs
    rw [hv]
    exact pyEqB_refl rfl
  have hnnil : l.filter (fun c => pyEqB (Collection.orderKey (lowStr ord) c)
      (Collection.orderKey (lowStr ord) (l.get ⟨j, hj⟩))) ≠ [] := by
    intro h0
    rw [h0] at hmem
    cases hmem
  refine ⟨r, hres, heqlist, ?_⟩
  cases hfl : l.filter (fun c => pyEqB (Collection.orderKey (lowStr ord) c)
      (Collection.orderKey (lowStr ord) (l.get ⟨j, hj⟩))) with
  | nil => exact absurd hfl hnnil
  | cons a t =>
    rw [heqlist, hfl, List.getLast?_cons]
    rfl

/-- Witness for C5 at a concrete input: two records named `a` collide on
the order key; the build succeeds and exactly the later one survives. -/
theorem claim5_duplicate_key_last_write_wins_witness :
    ∃ r, Collection.order_results "name".data "desc".data 1000 [objA, objA2]
        = .ok r ∧
      r.filter (fun c => pyEqB (Collection.orderKey (lowStr "name".data) c)
          (Collection.orderKey (lowStr "name".data)
            (([objA, objA2] : List PyObj).get ⟨1, by simp⟩)))
        = (([objA, objA2] : List PyObj).filter
            (fun c => pyEqB (Collection.orderKey (lowStr "name".data) c)
              (Collection.orderKey (lowStr "name".data)
                (([objA, objA2] : List PyObj).get ⟨1, by simp⟩)))).getLast?.toList ∧
      (r.filter (fun c => pyEqB (Collection.orderKey (lowStr "name".data) c)
          (Collection.orderKey (lowStr "name".data)
            (([objA, objA2] : List PyObj).get ⟨1, by simp⟩)))).length = 1 :=
  claim5_duplicate_key_last_write_wins "name".data "desc".data 1000
    [objA, objA2] 0 1 (by simp) (by simp) (by omega)
    (by
      intro c hc
      rcases List.mem_cons.mp hc with rfl | hc2
      · exact ⟨"a".data, rfl⟩
      · rcases List.mem_cons.mp hc2 with rfl | hc3
        · exact ⟨"a".data, rfl⟩
        · cases hc3)
    (by simp) rfl

theorem phase_frame {a a1 : PyVal} {ad : List (Str × PyVal)} {k k2 : Str}
    (ha : a = .vdict ad) (hne : k2 ≠ k)
    (hbr : a1 = dictRemove a k ∨ a1 = a) :
    dictGetE a1 k2 = dictGetE a k2 := by
  rcases hbr with rfl | rfl
  · subst ha
    exact dictRemove_get_other ad k k2 hne
  · rfl

/-- C7: after a `Dataset` (or `Table`) is constructed from a supplied
attributes mapping, the attributes hold no nested `layer`, `metadata` or
`vocabulary` sub-objects: whatever remains under those keys is `None`
(the key was popped) or has length zero (the original empty list, which
the source leaves in place); the sub-objects themselves have been
extracted into the typed children — the `layers` list is built from the
original `layer` list, and `metadata`/`vocabulary` wrap the first
element of their original lists (or are the `False`-equivalent `none`
when those lists were empty). -/
theorem claim7_children_extracted
    (fD : PyVal → PyVal) (idv attrs : PyVal) (tb : Bool) (ds : DatasetObj)
    (htruthy : pyTruthy attrs = true)
    (hok : Dataset.make fD idv attrs tb = .ok ds) :
    ((∃ v, dictGetE ds.attributes "layer".data = .ok v ∧
        (v = .vnone ∨ pyLenE v = .ok 0)) ∧
     (∃ v, dictGetE ds.attributes "metadata".data = .ok v ∧
        (v = .vnone ∨ pyLenE v = .ok 0)) ∧
     (∃ v, dictGetE ds.attributes "vocabulary".data = .ok v ∧
        (v = .vnone ∨ pyLenE v = .ok 0))) ∧
    (∃ lv, dictGetE attrs "layer".data = .ok lv ∧
      ((pyLenE lv = .ok 0 ∧ ds.layers = []) ∨
       (∃ elems, pyIterE lv = .ok elems ∧
         mapME Layer.fromAttrs elems = .ok ds.layers))) ∧
    (∃ mv, dictGetE attrs "metadata".data = .ok mv ∧
      ((pyLenE mv = .ok 0 ∧ ds.metadata = none) ∨
       (∃ fv md, pyIndex0E mv = .ok fv ∧ Metadata.make fv = .ok md ∧
         ds.metadata = some md))) ∧
    (∃ vv, dictGetE attrs "vocabulary".data = .ok vv ∧
      ((pyLenE vv = .ok 0 ∧ ds.vocabulary = none) ∨
       (∃ fv vb, pyIndex0E vv = .ok fv ∧ Vocabulary.make fv = .ok vb ∧
         ds.vocabulary = some vb))) := by
  obtain ⟨ls, a1, md, a2, vb, a3, h1, h2, h3, hds⟩ := Dataset.make_parts hok
  rw [if_pos htruthy] at h1
  obtain ⟨lv, n1, hlv, hn1, hbr1⟩ := Dataset.layerPhase_cases h1
  obtain ⟨ad, rfl⟩ := dictGetE_ok_vdict hlv
  have hbr1or : a1 = dictRemove (PyVal.vdict ad) "layer".data ∨
      a1 = PyVal.vdict ad := by
    rcases hbr1 with ⟨-, -, h⟩ | ⟨-, -, h⟩
    · exact Or.inl h
    · exact Or.inr h
  obtain ⟨ad1, ha1⟩ : ∃ ad1, a1 = .vdict ad1 := by
    rcases hbr1or with rfl | rfl
    · exact ⟨_, rfl⟩
    · exact ⟨ad, rfl⟩
  obtain ⟨mv, n2, hmv, hn2, hbr2⟩ := Dataset.metaPhase_cases h2
  have hbr2or : a2 = dictRemove a1 "metadata".data ∨ a2 = a1 := by
    rcases hbr2 with ⟨-, -, h⟩ | ⟨-, -, h⟩
    · exact Or.inl h
    · exact Or.inr h
  obtain ⟨ad2, ha2⟩ : ∃ ad2, a2 = .vdict ad2 := by
    rcases hbr2or with rfl | rfl
    · subst ha1
      exact ⟨_, rfl⟩
    · exact ⟨ad1, ha1⟩
  obtain ⟨vv, n3, hvv, hn3, hbr3⟩ := Dataset.vocabPhase_cases h3
  have hbr3or : a3 = dictRemove a2 "vocabulary".data ∨ a3 = a2 := by
    rcases hbr3 with ⟨-, -, h⟩ | ⟨-, -, h⟩
    · exact Or.inl h
    · exact Or.inr h
  have hM_frame : dictGetE a1 "metadata".data
      = dictGetE (PyVal.vdict ad) "metadata".data :=
    phase_frame rfl (by decide) hbr1or
  have hV_frame1 : dictGetE a1 "vocabulary".data
      = dictGetE (PyVal.vdict ad) "vocabulary".data :=
    phase_frame rfl (by decide) hbr1or
  have hV_frame2 : dictGetE a2 "vocabulary".data
      = dictGetE a1 "vocabulary".data :=
    phase_frame ha1 (by decide) hbr2or
  have hL_frame2 : dictGetE a2 "layer".data = dictGetE a1 "layer".data :=
    phase_frame ha1 (by decide) hbr2or
  have hL_frame3 : dictGetE a3 "layer".data = dictGetE a2 "layer".data :=
    phase_frame ha2 (by decide) hbr3or
  have hM_frame3 : dictGetE a3 "metadata".data = dictGetE a2 "metadata".data :=
    phase_frame ha2 (by decide) hbr3or
  subst hds
  refine ⟨⟨?_, ?_, ?_⟩, ?_, ?_, ?_⟩
  · show ∃ v, dictGetE a3 "layer".data = .ok v ∧ _
    rw [hL_frame3, hL_frame2]
    rcases hbr1 with ⟨-, -, hrem⟩ | ⟨hzero, -, hkeep⟩
    · subst hrem
      exact ⟨.vnone, dictRemove_get_same ad "layer".data, Or.inl rfl⟩
    · subst hkeep
      refine ⟨lv, hlv, Or.inr ?_⟩
      rw [hzero] at hn1
      exact hn1
  · show ∃ v, dictGetE a3 "metadata".data = .ok v ∧ _
    rw [hM_frame3]
    rcases hbr2 with ⟨-, -, hrem⟩ | ⟨hzero, -, hkeep⟩
    · subst hrem
      subst ha1
      exact ⟨.vnone, dictRemove_get_same ad1 "metadata".data, Or.inl rfl⟩
    · subst hkeep
      refine ⟨mv, hmv, Or.inr ?_⟩
      rw [hzero] at hn2
      exact hn2
  · show ∃ v, dictGetE a3 "vocabulary".data = .ok v ∧ _
    rcases hbr3 with ⟨-, -, hrem⟩ | ⟨hzero, -, hkeep⟩
    · subst hrem
      subst ha2
      exact ⟨.vnone, dictRemove_get_same ad2 "vocabulary".data, Or.inl rfl⟩
    · subst hkeep
      refine ⟨vv, hvv, Or.inr ?_⟩
      rw [hzero] at hn3
      exact hn3
  · rcases hbr1 with ⟨-, ⟨elems, hiter, hmap⟩, -⟩ | ⟨hzero, hls, -⟩
    · exact ⟨lv, hlv, Or.inr ⟨elems, hiter, hmap⟩⟩
    · refine ⟨lv, hlv, Or.inl ⟨?_, hls⟩⟩
      rw [hzero] at hn1
      exact hn1
  · rcases hbr2 with ⟨-, ⟨fv, m2, hidx, hmk, hmd⟩, -⟩ | ⟨hzero, hmd, -⟩
    · exact ⟨mv, hM_frame ▸ hmv, Or.inr ⟨fv, m2, hidx, hmk, hmd⟩⟩
    · refine ⟨mv, hM_frame ▸ hmv, Or.inl ⟨?_, hmd⟩⟩
      rw [hzero] at hn2
      exact hn2
  · have hvv2 : dictGetE (PyVal.vdict ad) "vocabulary".data = .ok vv := by
      rw [← hV_frame1, ← hV_frame2]
      exact hvv
    rcases hbr3 with ⟨-, ⟨fv, v2, hidx, hmk, hvb⟩, -⟩ | ⟨hzero, hvb, -⟩
    · exact ⟨vv, hvv2, Or.inr ⟨fv, v2, hidx, hmk, hvb⟩⟩
    · refine ⟨vv, hvv2, Or.inl ⟨?_, hvb⟩⟩
      rw [hzero] at hn3
      exact hn3

/-- Witness for C7 at a concrete dataset whose attributes carry one
layer, one metadata and one vocabulary child: after construction no
sub-object remains under the three keys. -/
theorem claim7_children_extracted_witness :
    ∃ ds : DatasetObj, Dataset.make noFetch (.vstr "d9".data) richAttrs false
        = .ok ds ∧
      (∃ v, dictGetE ds.attributes "layer".data = .ok v ∧
        (v = .vnone ∨ pyLenE v = .ok 0)) ∧
      (∃ v, dictGetE ds.attributes "metadata".data = .ok v ∧
        (v = .vnone ∨ pyLenE v = .ok 0)) ∧
      (∃ v, dictGetE ds.attributes "vocabulary".data = .ok v ∧
        (v = .vnone ∨ pyLenE v = .ok 0)) := by
  have hmk : Dataset.make noFetch (.vstr "d9".data) richAttrs false
      = .ok ⟨.vstr "d9".data,
        [⟨.vstr "l1".data, .vdict [("name".data, .vstr "L1".data)]⟩],
        .vdict [("name".data, .vstr "Rich".data)],
        some ⟨.vstr "m1".data, .vdict []⟩,
        some ⟨.vstr "r1".data,
          .vdict [("resource".data, .vdict [("id".data, .vstr "r1".data)])]⟩,
        false⟩ := rfl
  obtain ⟨hA, -, -, -⟩ := claim7_children_extracted noFetch (.vstr "d9".data)
    richAttrs false _ rfl hmk
  exact ⟨_, hmk, hA.1, hA.2.1, hA.2.2⟩

/-- C10: constructing a `Dataset` from an explicitly supplied (truthy)
attributes mapping requires the keys `layer`, `metadata` and
`vocabulary` to be present and sized; when any of the three reads back
as `None`, construction raises (for a missing `layer` key the raised
exception is the `TypeError` of `len(None)`) instead of treating the
absence as an empty child. -/
theorem claim10_missing_children_keys_raise
    (fD : PyVal → PyVal) (idv attrs : PyVal) (tb : Bool)
    (htruthy : pyTruthy attrs = true)
    (hmiss : dictGetE attrs "layer".data = .ok .vnone ∨
      dictGetE attrs "metadata".data = .ok .vnone ∨
      dictGetE attrs "vocabulary".data = .ok .vnone) :
    (∃ e, Dataset.make fD idv attrs tb = .error e) ∧
    (dictGetE attrs "layer".data = .ok .vnone →
      Dataset.make fD idv attrs tb = .error .typeError) := by
  have hlayer : ∀ (h : dictGetE attrs "layer".data = .ok .vnone),
      Dataset.make fD idv attrs tb = .error .typeError := by
    intro h
    have hlp : Dataset.layerPhase attrs = .error .typeError := by
      rw [Dataset.layerPhase, h]
      simp only [ok_bind]
      rfl
    rw [Dataset.make, if_pos htruthy, hlp]
    rfl
  refine ⟨?_, hlayer⟩
  rcases hmiss with hm | hm | hm
  · exact ⟨.typeError, hlayer hm⟩
  · cases hl1 : Dataset.layerPhase attrs with
    | error e =>
      refine ⟨e, ?_⟩
      rw [Dataset.make, if_pos htruthy, hl1]
      rfl
    | ok p1 =>
      obtain ⟨ad, rfl⟩ := dictGetE_ok_vdict hm
      obtain ⟨lv, n1, hlv, hn1, hbr1⟩ :=
        Dataset.layerPhase_cases (show Dataset.layerPhase (PyVal.vdict ad)
          = .ok (p1.1, p1.2) from hl1)
      have hbr1or : p1.2 = dictRemove (PyVal.vdict ad) "layer".data ∨
          p1.2 = PyVal.vdict ad := by
        rcases hbr1 with ⟨-, -, hx⟩ | ⟨-, -, hx⟩
        · exact Or.inl hx
        · exact Or.inr hx
      have hm1 : dictGetE p1.2 "metadata".data = .ok .vnone := by
        rw [phase_frame rfl (by decide) hbr1or]
        exact hm
      have hmp : Dataset.metaPhase p1.2 = .error .typeError := by
        rw [Dataset.metaPhase, hm1]
        simp only [ok_bind]
        rfl
      refine ⟨.typeError, ?_⟩
      rw [Dataset.make, if_pos htruthy, hl1]
      simp only [ok_bind]
      rw [hmp]
      rfl
  · cases hl1 : Dataset.layerPhase attrs with
    | error e =>
      refine ⟨e, ?_⟩
      rw [Dataset.make, if_pos htruthy, hl1]
      rfl
    | ok p1 =>
      obtain ⟨ad, rfl⟩ := dictGetE_ok_vdict hm
      obtain ⟨lv, n1, hlv, hn1, hbr1⟩ :=
        Dataset.layerPhase_cases (show Dataset.layerPhase (PyVal.vdict ad)
          = .ok (p1.1, p1.2) from hl1)
      have hbr1or : p1.2 = dictRemove (PyVal.vdict ad) "layer".data ∨
          p1.2 = PyVal.vdict ad := by
        rcases hbr1 with ⟨-, -, hx⟩ | ⟨-, -, hx⟩
        · exact Or.inl hx
        · exact Or.inr hx
      obtain ⟨ad1, ha1⟩ : ∃ ad1, p1.2 = .vdict ad1 := by
        rcases hbr1or with hx | hx
        · exact ⟨_, hx⟩
        · exact ⟨ad, hx⟩
      cases hl2 : Dataset.metaPhase p1.2 with
      | error e =>
        refine ⟨e, ?_⟩
        rw [Dataset.make, if_pos htruthy, hl1]
        simp only [ok_bind]
        rw [hl2]
        rfl
      | ok p2 =>
        obtain ⟨mv, n2, hmv, hn2, hbr2⟩ :=
          Dataset.metaPhase_cases (show Dataset.metaPhase p1.2
            = .ok (p2.1, p2.2) from hl2)
        have hbr2or : p2.2 = dictRemove p1.2 "metadata".data ∨
            p2.2 = p1.2 := by
          rcases hbr2 with ⟨-, -, hx⟩ | ⟨-, -, hx⟩
          · exact Or.inl hx
          · exact Or.inr hx
        have hv2 : dictGetE p2.2 "vocabulary".data = .ok .vnone := by
          rw [phase_frame ha1 (by decide) hbr2or,
            phase_frame rfl (by decide) hbr1or]
          exact hm
        have hvp : Dataset.vocabPhase p2.2 = .error .typeError := by
          rw [Dataset.vocabPhase, hv2]
          simp only [ok_bind]
          rfl
        refine ⟨.typeError, ?_⟩
        rw [Dataset.make, if_pos htruthy, hl1]
        simp only [ok_bind]
        rw [hl2]
        simp only [ok_bind]
        rw [hvp]
        rfl

/-- Witness for C10 at concrete attributes lacking the `layer` key:
construction raises `TypeError` (from `len(None)`). -/
theorem claim10_missing_children_keys_raise_witness :
    Dataset.make noFetch (.vstr "d0".data) noLayerAttrs false
      = .error .typeError :=
  (claim10_missing_children_keys_raise noFetch (.vstr "d0".data)
    noLayerAttrs false rfl (Or.inl rfl)).2 rfl

end LMIPy
